import Mathlib

/-! Key-value store server: store, session table and notifier

A shallow embedding of `src/server/kvs.c` (the chained hash table) and of the
session / subscription code of `src/server/main.c`, followed by theorems about
them.

Conventions of the embedding.

* A C string is the list of its bytes before the terminating NUL (`CStr`), so
  `strcmp(a, b) == 0` is equality of lists and `key[0]` of an empty string is
  the NUL byte `0`.
* A collision chain (`KeyNode *` linked through `next`) is a `List KeyNode`.
* An access `ht->table[index]` is defined only for `0 ≤ index < TABLE_SIZE`;
  the functions return `none` when the C code would index outside the array.
* `notify_clients` is called by the store functions; each call is recorded
  in the result, together with the table contents at the moment of the call.
-/

namespace KVS

/-- Bytes of a NUL-terminated C string, terminator excluded. -/
abbrev CStr := List Nat

/-- Modelled from the spec: `TABLE_SIZE` is declared in `kvs.h`, which is not
among the sources; the spec gives `N_SHARDS` = 26. -/
def TABLE_SIZE : Nat := 26

/-- The C library `tolower` in the C locale: `'A'..'Z'` (65..90) are moved to
`'a'..'z'`, every other byte is returned as it is. -/
def tolower (c : Nat) : Nat :=
  if 65 ≤ c ∧ c ≤ 90 then c + 32 else c

/-- `int hash(const char *key)`: 97 = `'a'`, 122 = `'z'`, 48 = `'0'`, 57 = `'9'`. -/
def hash (key : CStr) : Int :=
  let firstLetter : Int := (tolower (key.headD 0) : Nat)
  if firstLetter ≥ 97 ∧ firstLetter ≤ 122 then
    firstLetter - 97
  else if firstLetter ≥ 48 ∧ firstLetter ≤ 57 then
    firstLetter - 48
  else
    -1

/-- One node of a chain (`next` is the tail of the list holding the node). -/
structure KeyNode where
  key : CStr
  value : CStr
deriving DecidableEq, Repr

/-- `struct HashTable`: the array `table[TABLE_SIZE]` of chains. -/
structure HashTable where
  table : Fin TABLE_SIZE → List KeyNode

/-- `create_hash_table`: every chain is `NULL`. -/
def create_hash_table : HashTable :=
  ⟨fun _ => []⟩

/-- The slot addressed by `ht->table[index]`, when `index` is inside the array. -/
def slot (index : Int) : Option (Fin TABLE_SIZE) :=
  if h : 0 ≤ index ∧ index < (TABLE_SIZE : Int) then
    some ⟨index.toNat, by omega⟩
  else
    none

/-- One call of `notify_clients(key, value)` made by the store, with the table
as it is when the call is made. -/
structure NotifyCall where
  key : CStr
  value : CStr
  table : HashTable

/-- Outcome of a mutating store function: the table afterwards, the returned
`int`, and the calls of `notify_clients` it made, in order. -/
structure KvsResult where
  ht : HashTable
  ret : Int
  notified : List NotifyCall

/-- The `while` loop of `write_pair`: the value of the first node whose key
equals `key` is replaced; `none` when the loop reaches `NULL`. -/
def write_chain (key value : CStr) : List KeyNode → Option (List KeyNode)
  | [] => none
  | keyNode :: next =>
    if keyNode.key = key then
      some ({ keyNode with value := value } :: next)
    else
      (write_chain key value next).map (keyNode :: ·)

/-- `int write_pair(HashTable *ht, const char *key, const char *value)`. -/
def write_pair (ht : HashTable) (key value : CStr) : Option KvsResult :=
  match slot (hash key) with
  | none => none
  | some index =>
    match write_chain key value (ht.table index) with
    | some chain =>
      let ht1 : HashTable := ⟨Function.update ht.table index chain⟩
      some ⟨ht1, 0, [⟨key, value, ht1⟩]⟩
    | none =>
      let ht1 : HashTable :=
        ⟨Function.update ht.table index (⟨key, value⟩ :: ht.table index)⟩
      some ⟨ht1, 0, [⟨key, value, ht1⟩]⟩

/-- The loop shared by `key_exists` and `read_pair`: the value of the first
node whose key equals `key`. -/
def read_chain (key : CStr) : List KeyNode → Option CStr
  | [] => none
  | keyNode :: next =>
    if keyNode.key = key then some keyNode.value else read_chain key next

/-- `int key_exists(HashTable *ht, const char *key)`. -/
def key_exists (ht : HashTable) (key : CStr) : Option Int :=
  match slot (hash key) with
  | none => none
  | some index =>
    match read_chain key (ht.table index) with
    | some _ => some 1
    | none => some 0

/-- `char *read_pair(HashTable *ht, const char *key)`: the inner `none`
is the `NULL` result. -/
def read_pair (ht : HashTable) (key : CStr) : Option (Option CStr) :=
  match slot (hash key) with
  | none => none
  | some index => some (read_chain key (ht.table index))

/-- The `while` loop of `delete_pair`: the first node whose key equals `key`
is unlinked; `none` when the loop reaches `NULL`. -/
def delete_chain (key : CStr) : List KeyNode → Option (List KeyNode)
  | [] => none
  | keyNode :: next =>
    if keyNode.key = key then
      some next
    else
      (delete_chain key next).map (keyNode :: ·)

/-- The string literal `"DELETED"`. -/
def DELETED : CStr := [68, 69, 76, 69, 84, 69, 68]

/-- `int delete_pair(HashTable *ht, const char *key)`. -/
def delete_pair (ht : HashTable) (key : CStr) : Option KvsResult :=
  match slot (hash key) with
  | none => none
  | some index =>
    match delete_chain key (ht.table index) with
    | some chain =>
      let ht1 : HashTable := ⟨Function.update ht.table index chain⟩
      some ⟨ht1, 0, [⟨key, DELETED, ht1⟩]⟩
    | none => some ⟨ht, 1, []⟩

/-- A store command, as issued by a job or a test. -/
inductive StoreOp where
  | write (key value : CStr)
  | delete (key : CStr)
deriving DecidableEq, Repr

/-- The table after one store command. -/
def applyStoreOp (ht : HashTable) : StoreOp → Option HashTable
  | .write key value => (write_pair ht key value).map (·.ht)
  | .delete key => (delete_pair ht key).map (·.ht)

/-- The table after a sequence of store commands. -/
def runStore (ht : HashTable) : List StoreOp → Option HashTable
  | [] => some ht
  | op :: ops =>
    match applyStoreOp ht op with
    | none => none
    | some ht1 => runStore ht1 ops

/-- The key a store command is about. -/
def StoreOp.key : StoreOp → CStr
  | .write key _ => key
  | .delete key => key

/-- A byte that is an ASCII letter or an ASCII digit. -/
def isLetterOrDigit (c : Nat) : Prop :=
  (65 ≤ c ∧ c ≤ 90) ∨ (97 ≤ c ∧ c ≤ 122) ∨ (48 ≤ c ∧ c ≤ 57)

instance (c : Nat) : Decidable (isLetterOrDigit c) := by
  unfold isLetterOrDigit; infer_instance

/-- A valid key: its first byte is an ASCII letter or digit. -/
def ValidKey (key : CStr) : Prop :=
  isLetterOrDigit (key.headD 0)

instance (key : CStr) : Decidable (ValidKey key) := by
  unfold ValidKey; infer_instance

/-- Every chain holds each key at most once. -/
def ChainsNodup (ht : HashTable) : Prop :=
  ∀ index, ((ht.table index).map KeyNode.key).Nodup


/-! ## The session table (`src/server/main.c`)

Conventions of this part.

* `subscribed_keys` of a session is the list of the first
  `num_subscribed_keys` rows of the C array, so `num_subscribed_keys` is its
  length; the rows past that count are never read by the code.
* The descriptors `req_fd`, `resp_fd`, `notif_fd` and the `thread` field are
  not part of the model. A `write(clients[i].notif_fd, …)` is recorded as a
  write on the sink of slot `i`; a reply is recorded as the two bytes handed
  to `write` on the response pipe. Calls of `open`, `read`, `write` and
  `pthread_create` are taken to succeed.
* Every function is one critical section of the C code run to completion.
-/

/-- Modelled from the spec: `MAX_NUMBER_SUB` is declared in
`src/common/constants.h`, which is not among the sources; it bounds both the
session table and the keys of one session, and the spec gives
`MAX_SESSIONS` = `MAX_SUBS_PER_SESSION` = 32. -/
def MAX_NUMBER_SUB : Nat := 32

/-- Modelled from the spec: `MAX_STRING_SIZE` is declared in
`src/common/constants.h`, which is not among the sources; the spec gives 40. -/
def MAX_STRING_SIZE : Nat := 40

/-- Modelled from the spec: the opcode of CONNECT, from the missing
`src/common/protocol.h`; the spec gives 1. -/
def OP_CODE_CONNECT : Int := 1

/-- Modelled from the spec: the opcode of DISCONNECT, from the missing
`src/common/protocol.h`; the spec gives 2. -/
def OP_CODE_DISCONNECT : Int := 2

/-- Modelled from the spec: the opcode of SUBSCRIBE, from the missing
`src/common/protocol.h`; the spec gives 3. -/
def OP_CODE_SUBSCRIBE : Int := 3

/-- Modelled from the spec: the opcode of UNSUBSCRIBE, from the missing
`src/common/protocol.h`; the spec gives 4. -/
def OP_CODE_UNSUBSCRIBE : Int := 4

/-- `struct ClientData`, without descriptors and thread handle. -/
structure ClientData where
  req_pipe_path : CStr
  resp_pipe_path : CStr
  notif_pipe_path : CStr
  active : Int
  subscribed_keys : List CStr
deriving DecidableEq, Repr

/-- A zero-filled `struct ClientData` (static storage, or after `memset`). -/
def ClientData.zero : ClientData :=
  ⟨[], [], [], 0, []⟩

/-- The globals of `main.c` that the session code uses, and the slots whose
`client_handler` thread is running (one entry per thread, holding the index
of the `clients` element the thread received as `arg`). -/
structure Server where
  clients : List ClientData
  num_clients : Nat
  sigusr1_received : Int
  handlers : List Nat
deriving DecidableEq, Repr

/-- The state at program start: `clients` zero-filled, `num_clients = 0`. -/
def Server.init : Server :=
  ⟨List.replicate MAX_NUMBER_SUB ClientData.zero, 0, 0, []⟩

/-- Apply `f` to the first `n` elements of a list (a loop `for i < n`
that rewrites `clients[i]` in place). -/
def map_first (f : ClientData → ClientData) : Nat → List ClientData → List ClientData
  | 0, clients => clients
  | _ + 1, [] => []
  | n + 1, c :: rest => f c :: map_first f n rest

/-- `void unsubscribe_all_clients()`. -/
def unsubscribe_all_clients (st : Server) : Server :=
  let clients1 := map_first
    (fun c => if c.active ≠ 0 then { c with subscribed_keys := [] } else c)
    st.num_clients st.clients
  { st with clients := clients1 }

/-- `void disconnect_all_clients()`. -/
def disconnect_all_clients (st : Server) : Server :=
  let clients1 := map_first
    (fun c => if c.active ≠ 0 then { c with active := 0 } else c)
    st.num_clients st.clients
  { st with clients := clients1 }

/-- `void handle_sigusr1(int sig)`: the flag is set, then the two passes over
the table run. No thread is stopped: the handler threads stay in their
`while` loop on the slots they were given, which are now inactive. -/
def handle_sigusr1 (st : Server) : Server :=
  disconnect_all_clients (unsubscribe_all_clients { st with sigusr1_received := 1 })

/-- `int add_client(struct ClientData *new_client)`: the argument is the
value the pointer refers to at the call. -/
def add_client (st : Server) (new_client : ClientData) : Server × Int :=
  if st.num_clients ≥ MAX_NUMBER_SUB then
    (st, -1)
  else
    ({ st with clients := st.clients.set st.num_clients new_client,
               num_clients := st.num_clients + 1 }, 0)

/-- The search loop of `remove_client`: the first index whose
`req_pipe_path` equals the argument. -/
def find_path (req_pipe_path : CStr) : List ClientData → Option Nat
  | [] => none
  | c :: rest =>
    if c.req_pipe_path = req_pipe_path then some 0
    else (find_path req_pipe_path rest).map (· + 1)

/-- `int remove_client(const char *req_pipe_path)`. -/
def remove_client (st : Server) (req_pipe_path : CStr) : Server × Int :=
  match find_path req_pipe_path (st.clients.take st.num_clients) with
  | some i =>
    let clients1 := st.clients.modify
      (fun c => { c with subscribed_keys := [], active := 0 }) i
    ({ st with clients := clients1 }, 0)
  | none => (st, -1)

/-- The key a SUBSCRIBE or UNSUBSCRIBE handler extracts from the bytes it
read: `strncpy(key, buffer + 1, MAX_STRING_SIZE - 1)` stops at the first NUL
(the handler puts one after the bytes read), then trailing spaces (32) are
cut. -/
def request_key (buffer : List Nat) : CStr :=
  ((((buffer.drop 1).takeWhile (· ≠ 0)).take (MAX_STRING_SIZE - 1)).reverse.dropWhile
    (· = 32)).reverse

/-- Case `OP_CODE_SUBSCRIBE` of `client_handler`, on the session record: the
record afterwards and the two bytes of the reply. -/
def handle_subscribe (ht : HashTable) (client_data : ClientData) (buffer : List Nat) :
    Option (ClientData × List Int) :=
  let key := request_key buffer
  match key_exists ht key with
  | none => none
  | some found =>
    if found ≠ 0 then
      let result : Int := if key ∈ client_data.subscribed_keys then 0 else 1
      let client_data1 :=
        if result = 1 ∧ client_data.subscribed_keys.length < MAX_NUMBER_SUB then
          { client_data with subscribed_keys := client_data.subscribed_keys ++ [key] }
        else client_data
      some (client_data1, [OP_CODE_SUBSCRIBE, result])
    else
      some (client_data, [OP_CODE_SUBSCRIBE, 0])

/-- The loop of case `OP_CODE_UNSUBSCRIBE`: the first row equal to `key` is
dropped and the rows after it move down by one; `none` when no row matches. -/
def remove_key (key : CStr) : List CStr → Option (List CStr)
  | [] => none
  | k :: rest =>
    if k = key then some rest else (remove_key key rest).map (k :: ·)

/-- Case `OP_CODE_UNSUBSCRIBE` of `client_handler`, on the session record. -/
def handle_unsubscribe (client_data : ClientData) (buffer : List Nat) :
    ClientData × List Int :=
  let key := request_key buffer
  match remove_key key client_data.subscribed_keys with
  | some keys => ({ client_data with subscribed_keys := keys }, [OP_CODE_UNSUBSCRIBE, 0])
  | none => (client_data, [OP_CODE_UNSUBSCRIBE, 1])

/-- What one pass of the `while` loop of `client_handler` does. -/
structure HandlerResult where
  st : Server
  response : Option (List Int)
  exited : Bool
deriving DecidableEq, Repr

/-- One pass of the `while` loop of `client_handler` for the thread whose
`client_data` is `&clients[slot]`, after a `read` that returned the bytes
`buffer` (`bytes_read > 0`), with the store contents `ht`. -/
def client_handler (st : Server) (ht : HashTable) (slot : Nat) (buffer : List Nat) :
    Option HandlerResult :=
  match st.clients[slot]? with
  | none => none
  | some client_data =>
    let op_code : Int := (buffer.headD 0 : Nat)
    if op_code = OP_CODE_SUBSCRIBE then
      match handle_subscribe ht client_data buffer with
      | none => none
      | some (client_data1, response) =>
        some ⟨{ st with clients := st.clients.set slot client_data1 }, some response, false⟩
    else if op_code = OP_CODE_UNSUBSCRIBE then
      let (client_data1, response) := handle_unsubscribe client_data buffer
      some ⟨{ st with clients := st.clients.set slot client_data1 }, some response, false⟩
    else if op_code = OP_CODE_DISCONNECT then
      let st1 := (remove_client st client_data.req_pipe_path).1
      some ⟨{ st1 with handlers := st1.handlers.erase slot },
        some [OP_CODE_DISCONNECT, 0], true⟩
    else
      some ⟨st, none, false⟩

/-- The three paths of a CONNECT frame, each read up to its NUL padding
(a path is shorter than its field of `MAX_PIPE_PATH_LENGTH` bytes, so the
field holds the terminator). -/
structure Frame where
  req_pipe_path : CStr
  resp_pipe_path : CStr
  notif_pipe_path : CStr
deriving DecidableEq, Repr

/-- The slot search of `client_listener`: the first index with `active == 0`. -/
def free_slot : List ClientData → Option Nat
  | [] => none
  | c :: rest =>
    if c.active = 0 then some 0 else (free_slot rest).map (· + 1)

/-- What one pass of the `while` loop of `client_listener` does: the state
afterwards, the bytes written to the response pipe named in the frame
(`none`: nothing is written), and the slot handed to `pthread_create`
(`none`: no thread is created). -/
structure ListenerResult where
  st : Server
  response : Option (List Int)
  spawned : Option Nat
deriving DecidableEq, Repr

/-- One pass of the `while` loop of `client_listener`, after the frame was
read. -/
def client_listener (st : Server) (frame : Frame) : ListenerResult :=
  match free_slot st.clients with
  | none => ⟨st, none, none⟩
  | some client_id =>
    let client := st.clients.getD client_id ClientData.zero
    let client1 : ClientData :=
      if client.active = 0 then
        ⟨frame.req_pipe_path, frame.resp_pipe_path, frame.notif_pipe_path, 1, []⟩
      else client
    let result : Int := if client.active = 0 then 0 else 1
    let st1 : Server := { st with clients := st.clients.set client_id client1 }
    let added := add_client st1 client1
    if added.2 ≠ 0 then
      ⟨added.1, some [OP_CODE_CONNECT, result], none⟩
    else
      ⟨{ added.1 with handlers := client_id :: added.1.handlers },
        some [OP_CODE_CONNECT, result], some client_id⟩

/-- The text `snprintf(notification, MAX_STRING_SIZE * 2 + 3, "(%s,%s)\n", key,
value)` leaves in the buffer: at most one byte less than the buffer size. -/
def notification (key value : CStr) : CStr :=
  ((40 :: key) ++ (44 :: value) ++ [41, 10]).take (MAX_STRING_SIZE * 2 + 3 - 1)

/-- The two nested loops of `notify_clients`, from slot `i` on: one write
for every row of `subscribed_keys` equal to `key`. -/
def notify_loop (key value : CStr) (i : Nat) : List ClientData → List (Nat × CStr)
  | [] => []
  | c :: rest =>
    (c.subscribed_keys.filter (· = key)).map (fun _ => (i, notification key value)) ++
      notify_loop key value (i + 1) rest

/-- `void notify_clients(const char *key, const char *value)`: the writes it
issues, each as the slot whose `notif_fd` is written and the text. -/
def notify_clients (st : Server) (key value : CStr) : List (Nat × CStr) :=
  notify_loop key value 0 (st.clients.take st.num_clients)

/-- An event of the session subsystem: a CONNECT frame read by the
listener, a request read by the handler thread of a slot (with the store
contents at that moment), or the signal SIGUSR1. -/
inductive ServerOp where
  | connect (frame : Frame)
  | request (slot : Nat) (ht : HashTable) (buffer : List Nat)
  | sigusr1

/-- The state after one event; `none` when no handler thread of that slot
is running, or the request is empty, or the handler indexes outside the
hash table. -/
def step (st : Server) : ServerOp → Option Server
  | .connect frame => some (client_listener st frame).st
  | .request slot ht buffer =>
    if slot ∈ st.handlers ∧ buffer ≠ [] then
      (client_handler st ht slot buffer).map (·.st)
    else none
  | .sigusr1 => some (handle_sigusr1 st)

/-- The state after a sequence of events. -/
def run (st : Server) : List ServerOp → Option Server
  | [] => some st
  | op :: ops =>
    match step st op with
    | none => none
    | some st1 => run st1 ops

/-- Whether a request path is the `req_pipe_path` of a slot whose handler
thread is running, that is, of a client connected at this moment. -/
def path_in_use (st : Server) (req_pipe_path : CStr) : Bool :=
  st.handlers.any fun h =>
    match st.clients[h]? with
    | some c => decide (c.req_pipe_path = req_pipe_path)
    | none => false

/-- Whether, along a sequence of events, no CONNECT frame carries a request
path that a client connected at that moment is using. -/
def distinct_paths (st : Server) : List ServerOp → Bool
  | [] => true
  | op :: ops =>
    (match op with
      | .connect frame => !path_in_use st frame.req_pipe_path
      | _ => true) &&
    (match step st op with
      | none => true
      | some st1 => distinct_paths st1 ops)

/-- A store holding the pair ("a", "1") in chain 0 and nothing else. -/
def storeA : HashTable :=
  ⟨fun index => if index.val = 0 then [⟨[97], [49]⟩] else []⟩

/-- A session that holds `MAX_NUMBER_SUB` keys: "a0", "a1", … ("a" followed
by the bytes 48, 49, …, 79). -/
def fullSession : ClientData :=
  ⟨[114], [115], [110], 1, (List.range MAX_NUMBER_SUB).map fun i => [97, 48 + i]⟩

/-- The CONNECT frame of a client with the paths "a", "b", "c". -/
def frameA : Frame := ⟨[97], [98], [99]⟩

/-- The CONNECT frame of a client with the paths "d", "e", "f". -/
def frameB : Frame := ⟨[100], [101], [102]⟩

/-- `MAX_NUMBER_SUB` CONNECT frames with pairwise distinct paths: "r0",
"s0", "n0", then "r1", "s1", "n1", and so on. -/
def connectFrames : List Frame :=
  (List.range MAX_NUMBER_SUB).map fun i => ⟨[114, 48 + i], [115, 48 + i], [110, 48 + i]⟩

/-- The session table after the frames of `connectFrames`. -/
def fullTable : Server :=
  ⟨connectFrames.map fun f => ⟨f.req_pipe_path, f.resp_pipe_path, f.notif_pipe_path, 1, []⟩,
    MAX_NUMBER_SUB, 0, (List.range MAX_NUMBER_SUB).reverse⟩

/-- The replies of the listener to a sequence of CONNECT frames. -/
def connect_responses (st : Server) : List Frame → List (Option (List Int))
  | [] => []
  | frame :: frames =>
    (client_listener st frame).response ::
      connect_responses (client_listener st frame).st frames

/-- No request path is held by two active entries of the session table. -/
def AtMostOneActivePerPath (st : Server) : Prop :=
  ∀ (i j : Nat) (ci cj : ClientData), st.clients[i]? = some ci → st.clients[j]? = some cj →
    ci.active ≠ 0 → cj.active ≠ 0 → ci.req_pipe_path = cj.req_pipe_path → i = j

/-- CONNECT of client "a", its DISCONNECT, CONNECT of client "d". -/
def reconnectOps : List ServerOp :=
  [.connect frameA, .request 0 create_hash_table [2], .connect frameB]

/-- Client "a" connects and disconnects twice, client "d" connects, client
"a" connects a third time (it is given slot 3) and subscribes to the key
"a", which the store holds. -/
def ghostOps : List ServerOp :=
  [.connect frameA, .request 0 create_hash_table [2],
   .connect frameA, .request 0 create_hash_table [2],
   .connect frameB, .connect frameA, .request 3 storeA [3, 97]]

/-- Two slots do not hold the same request path. -/
def PathsDiffer (st : Server) (a b : Nat) : Prop :=
  ∀ ca cb : ClientData, st.clients[a]? = some ca → st.clients[b]? = some cb →
    ca.req_pipe_path ≠ cb.req_pipe_path

/-- What holds of the session table along every run without SIGUSR1 in which
connected clients use distinct request paths: the array has `MAX_NUMBER_SUB` slots;
the slots from `num_clients` on are inactive; an inactive slot has no
subscribed key; no session holds a key twice; the slot of a running handler
is active; running handlers have pairwise different request paths. -/
structure TableInv (st : Server) : Prop where
  length_eq : st.clients.length = MAX_NUMBER_SUB
  beyond : ∀ (i : Nat) (c : ClientData), st.clients[i]? = some c →
    st.num_clients ≤ i → c.active = 0
  inactive_empty : ∀ (i : Nat) (c : ClientData), st.clients[i]? = some c →
    c.active = 0 → c.subscribed_keys = []
  nodup : ∀ (i : Nat) (c : ClientData), st.clients[i]? = some c → c.subscribed_keys.Nodup
  handler_active : ∀ h ∈ st.handlers, ∃ c, st.clients[h]? = some c ∧ c.active ≠ 0
  handler_paths : st.handlers.Pairwise (PathsDiffer st)

/-- How one slot may change in a step that admits no client: it stays as it
is; or it is active and keeps `active` and its request path while its keys
stay duplicate-free; or it ends inactive without keys. -/
def SlotStep (c c1 : ClientData) : Prop :=
  c1 = c ∨
  (c.active ≠ 0 ∧ c1.active = c.active ∧ c1.req_pipe_path = c.req_pipe_path ∧
    c1.subscribed_keys.Nodup) ∨
  (c1.active = 0 ∧ c1.subscribed_keys = [])

/-- Client "a" connects and subscribes to the key "a", which the store
holds. -/
def subscribeOps : List ServerOp :=
  [.connect frameA, .request 0 storeA [3, 97]]

/-- Two clients connect with the same three paths "a", "b", "c"; the second
one (slot 1) disconnects; the first one (slot 0) then subscribes to the key
"a", which the store holds. -/
def sharedPathOps : List ServerOp :=
  [.connect frameA, .connect frameA, .request 1 create_hash_table [2],
   .request 0 storeA [3, 97]]

/-- The table reached from the empty one by writing ("a", "1") and
("b", "2"). -/
def storeAB : HashTable :=
  (runStore create_hash_table [.write [97] [49], .write [98] [50]]).getD create_hash_table

/-- The session table after `subscribeOps`. -/
def subscribedTable : Server :=
  (run Server.init subscribeOps).getD Server.init

/-- An operation on the `subscribed_keys` of one session: a SUBSCRIBE request
(with the store contents at that moment), an UNSUBSCRIBE request, or the pass
of `unsubscribe_all_clients` over the slot of the session. -/
inductive SessionOp where
  | subscribe (ht : HashTable) (buffer : List Nat)
  | unsubscribe (buffer : List Nat)
  | reset

/-- The session record after one operation; `none` when the SUBSCRIBE handler
indexes outside the hash table. -/
def applySessionOp (client_data : ClientData) : SessionOp → Option ClientData
  | .subscribe ht buffer => (handle_subscribe ht client_data buffer).map (·.1)
  | .unsubscribe buffer => some (handle_unsubscribe client_data buffer).1
  | .reset =>
    some (if client_data.active ≠ 0 then { client_data with subscribed_keys := [] }
      else client_data)

/-- The session record after a sequence of operations. -/
def runSession (client_data : ClientData) : List SessionOp → Option ClientData
  | [] => some client_data
  | op :: ops =>
    match applySessionOp client_data op with
    | none => none
    | some client_data1 => runSession client_data1 ops

/-- A session operation whose key, if it is a SUBSCRIBE, starts with an ASCII
letter or digit. -/
def SessionOp.valid : SessionOp → Prop
  | .subscribe _ buffer => ValidKey (request_key buffer)
  | _ => True

/-- A connected session of the client "a" with no subscribed key. -/
def sessionA : ClientData :=
  ⟨[97], [98], [99], 1, []⟩

/-- SUBSCRIBE "a" twice, SUBSCRIBE "b" (not in the store), UNSUBSCRIBE "a",
SUBSCRIBE "a", a reset, SUBSCRIBE "a". -/
def sessionOps : List SessionOp :=
  [.subscribe storeA [3, 97], .subscribe storeA [3, 97], .subscribe storeA [3, 98],
   .unsubscribe [4, 97], .subscribe storeA [3, 97], .reset, .subscribe storeA [3, 97]]

/-- The keys of all entries of the table, chain after chain. -/
def all_keys (ht : HashTable) : List CStr :=
  (List.finRange TABLE_SIZE).flatMap fun index => (ht.table index).map KeyNode.key

/-- Every key stored in chain `index` is one that `hash` sends to `index`. -/
def ChainsHashed (ht : HashTable) : Prop :=
  ∀ (index : Fin TABLE_SIZE) (key : CStr),
    key ∈ (ht.table index).map KeyNode.key → slot (hash key) = some index

/-- Writes and deletes of the keys "a", "Ab", "1", "b" (the first three all
hash to chain 0 or 1), with an overwrite and a delete. -/
def storeOps : List StoreOp :=
  [.write [97] [49], .write [65, 98] [50], .write [49] [51], .write [98] [52],
   .write [97] [53], .delete [49], .write [49] [54]]

/-- What holds of the session table along every run: the array has
`MAX_NUMBER_SUB` slots and the slots from `num_clients` on are inactive. -/
def SlotsBound (st : Server) : Prop :=
  st.clients.length = MAX_NUMBER_SUB ∧
  ∀ (i : Nat) (c : ClientData), st.clients[i]? = some c → st.num_clients ≤ i → c.active = 0

/-- Clients "a" and "d" connect, "a" subscribes to the key "a", which the
store holds. -/
def twoClientOps : List ServerOp :=
  [.connect frameA, .connect frameB, .request 0 storeA [3, 97]]

/-- The session table after `twoClientOps`. -/
def twoClientTable : Server :=
  (run Server.init twoClientOps).getD Server.init

/-- A key of 39 bytes, all "a": the longest a row of `subscribed_keys` holds. -/
def key39 : CStr := List.replicate 39 97

/-- A value of `MAX_STRING_SIZE` = 40 bytes, all "b". -/
def value40 : CStr := List.replicate 40 98

/-- A store holding the key `key39` with the value "1". -/
def storeLong : HashTable :=
  ⟨fun index => if index.val = 0 then [⟨key39, [49]⟩] else []⟩

/-- Client "a" connects and subscribes to `key39`, which the store holds. -/
def longKeyOps : List ServerOp :=
  [.connect frameA, .request 0 storeLong (3 :: key39)]

/-- `MAX_NUMBER_SUB` clients connect and the client of slot 0 disconnects. -/
def cycleOps : List ServerOp :=
  connectFrames.map ServerOp.connect ++ [.request 0 create_hash_table [2]]

/-- The session table after `cycleOps`. -/
def cycleTable : Server :=
  (run Server.init cycleOps).getD Server.init

/-- Whether a sequence of events holds no SIGUSR1. -/
def no_signal : List ServerOp → Bool
  | [] => true
  | .sigusr1 :: _ => false
  | _ :: ops => no_signal ops

/-- Client "a" connects, SIGUSR1 arrives, and the handler thread of slot 0,
which the signal did not stop, reads a SUBSCRIBE for the key "a", which the
store holds. -/
def resetOps : List ServerOp :=
  [.connect frameA, .sigusr1, .request 0 storeA [3, 97]]

/-! ## Theorems: the store -/

theorem slot_hash_of_valid {key : CStr} (hk : ValidKey key) :
    ∃ index, slot (hash key) = some index := by
  unfold ValidKey isLetterOrDigit at hk
  unfold slot hash tolower TABLE_SIZE
  simp only []
  split_ifs <;> first | exact ⟨_, rfl⟩ | (exfalso; omega)

theorem read_chain_write_chain_same {key value : CStr} :
    ∀ {chain chain1 : List KeyNode}, write_chain key value chain = some chain1 →
      read_chain key chain1 = some value
  | [], _, h => by simp [write_chain] at h
  | keyNode :: next, chain1, h => by
    by_cases hkey : keyNode.key = key
    · simp only [write_chain, hkey, if_true, Option.some.injEq] at h
      subst h
      simp [read_chain, hkey]
    · simp only [write_chain, hkey, if_false, Option.map_eq_some'] at h
      obtain ⟨rest, hrest, rfl⟩ := h
      simp [read_chain, hkey, read_chain_write_chain_same hrest]

theorem read_chain_write_chain_other {key key1 value1 : CStr} (hne : key ≠ key1) :
    ∀ {chain chain1 : List KeyNode}, write_chain key1 value1 chain = some chain1 →
      read_chain key chain1 = read_chain key chain
  | [], _, h => by simp [write_chain] at h
  | keyNode :: next, chain1, h => by
    by_cases hkey : keyNode.key = key1
    · simp only [write_chain, hkey, if_true, Option.some.injEq] at h
      subst h
      have : ¬ key1 = key := fun e => hne e.symm
      simp [read_chain, hkey, this]
    · simp only [write_chain, hkey, if_false, Option.map_eq_some'] at h
      obtain ⟨rest, hrest, rfl⟩ := h
      simp [read_chain, read_chain_write_chain_other hne hrest]

theorem read_chain_delete_chain_other {key key1 : CStr} (hne : key ≠ key1) :
    ∀ {chain chain1 : List KeyNode}, delete_chain key1 chain = some chain1 →
      read_chain key chain1 = read_chain key chain
  | [], _, h => by simp [delete_chain] at h
  | keyNode :: next, chain1, h => by
    by_cases hkey : keyNode.key = key1
    · simp only [delete_chain, hkey, if_true, Option.some.injEq] at h
      subst h
      have : ¬ key1 = key := fun e => hne e.symm
      simp [read_chain, hkey, this]
    · simp only [delete_chain, hkey, if_false, Option.map_eq_some'] at h
      obtain ⟨rest, hrest, rfl⟩ := h
      simp [read_chain, read_chain_delete_chain_other hne hrest]

theorem read_pair_after_write_pair (ht : HashTable) (k v : CStr) (hk : ValidKey k) :
    ∃ r, write_pair ht k v = some r ∧ r.ret = 0 ∧ read_pair r.ht k = some (some v) := by
  obtain ⟨index, hidx⟩ := slot_hash_of_valid hk
  unfold write_pair read_pair
  simp only [hidx]
  cases hw : write_chain k v (ht.table index) with
  | some chain =>
    exact ⟨_, rfl, rfl, by simp [read_chain_write_chain_same hw]⟩
  | none =>
    exact ⟨_, rfl, rfl, by simp [read_chain]⟩

/-- C1: for every store state, every key whose first byte is an ASCII letter
or digit, and every value, `write_pair` returns (with 0) and `read_pair` of
the same key on the resulting table returns the value just written, whether
or not the key was present before. -/
theorem write_pair_read_pair (ht : HashTable) (k v : CStr) (hk : ValidKey k) :
    ∃ r, write_pair ht k v = some r ∧ r.ret = 0 ∧ read_pair r.ht k = some (some v) :=
  read_pair_after_write_pair ht k v hk

/-- C1 witness: the key "a" overwritten in a table that already maps it. -/
theorem write_pair_read_pair_witness :
    ValidKey [97] ∧
    ∃ r, write_pair ⟨fun _ => [⟨[97], [49]⟩]⟩ [97] [50] = some r ∧ r.ret = 0 ∧
      read_pair r.ht [97] = some (some [50]) :=
  ⟨by decide, write_pair_read_pair _ [97] [50] (by decide)⟩

theorem read_chain_eq_none_iff {key : CStr} :
    ∀ {chain : List KeyNode}, read_chain key chain = none ↔ key ∉ chain.map KeyNode.key
  | [] => by simp [read_chain]
  | keyNode :: next => by
    by_cases hkey : keyNode.key = key
    · simp [read_chain, hkey]
    · have hne : ¬ key = keyNode.key := fun e => hkey e.symm
      simp only [read_chain, hkey, if_false, List.map_cons, List.mem_cons, hne, false_or]
      exact read_chain_eq_none_iff

theorem write_chain_keys {key value : CStr} :
    ∀ {chain chain1 : List KeyNode}, write_chain key value chain = some chain1 →
      chain1.map KeyNode.key = chain.map KeyNode.key
  | [], _, h => by simp [write_chain] at h
  | keyNode :: next, chain1, h => by
    by_cases hkey : keyNode.key = key
    · simp only [write_chain, hkey, if_true, Option.some.injEq] at h
      subst h
      simp [hkey]
    · simp only [write_chain, hkey, if_false, Option.map_eq_some'] at h
      obtain ⟨rest, hrest, rfl⟩ := h
      simp [write_chain_keys hrest]

theorem write_chain_eq_none_iff {key value : CStr} :
    ∀ {chain : List KeyNode}, write_chain key value chain = none ↔ read_chain key chain = none
  | [] => by simp [write_chain, read_chain]
  | keyNode :: next => by
    by_cases hkey : keyNode.key = key
    · simp [write_chain, read_chain, hkey]
    · simp only [write_chain, read_chain, hkey, if_false, Option.map_eq_none']
      exact write_chain_eq_none_iff

theorem delete_chain_eq_none_iff {key : CStr} :
    ∀ {chain : List KeyNode}, delete_chain key chain = none ↔ read_chain key chain = none
  | [] => by simp [delete_chain, read_chain]
  | keyNode :: next => by
    by_cases hkey : keyNode.key = key
    · simp [delete_chain, read_chain, hkey]
    · simp only [delete_chain, read_chain, hkey, if_false, Option.map_eq_none']
      exact delete_chain_eq_none_iff

theorem delete_chain_keys {key : CStr} :
    ∀ {chain chain1 : List KeyNode}, delete_chain key chain = some chain1 →
      chain1.map KeyNode.key = (chain.map KeyNode.key).erase key
  | [], _, h => by simp [delete_chain] at h
  | keyNode :: next, chain1, h => by
    by_cases hkey : keyNode.key = key
    · simp only [delete_chain, hkey, if_true, Option.some.injEq] at h
      subst h
      simp [hkey]
    · simp only [delete_chain, hkey, if_false, Option.map_eq_some'] at h
      obtain ⟨rest, hrest, rfl⟩ := h
      simp [delete_chain_keys hrest, List.erase_cons_tail, hkey]

theorem chainsNodup_create : ChainsNodup create_hash_table := by
  intro index; simp [create_hash_table]

theorem chainsNodup_update {ht : HashTable} {index : Fin TABLE_SIZE} {chain : List KeyNode}
    (hinv : ChainsNodup ht) (hchain : (chain.map KeyNode.key).Nodup) :
    ChainsNodup ⟨Function.update ht.table index chain⟩ := by
  intro j
  by_cases hj : j = index
  · subst hj; simpa using hchain
  · simpa [Function.update_noteq hj] using hinv j

theorem chainsNodup_applyStoreOp {ht ht1 : HashTable} {op : StoreOp}
    (hinv : ChainsNodup ht) (h : applyStoreOp ht op = some ht1) : ChainsNodup ht1 := by
  cases op with
  | write key value =>
    simp only [applyStoreOp, write_pair, Option.map_eq_some'] at h
    obtain ⟨r, hr, rfl⟩ := h
    cases hs : slot (hash key) with
    | none => simp [hs] at hr
    | some index =>
      simp only [hs] at hr
      cases hw : write_chain key value (ht.table index) with
      | some chain =>
        simp only [hw, Option.some.injEq] at hr
        subst hr
        exact chainsNodup_update hinv (by rw [write_chain_keys hw]; exact hinv index)
      | none =>
        simp only [hw, Option.some.injEq] at hr
        subst hr
        refine chainsNodup_update hinv ?_
        have hnot := read_chain_eq_none_iff.mp (write_chain_eq_none_iff.mp hw)
        simpa [List.nodup_cons] using And.intro hnot (hinv index)
  | delete key =>
    simp only [applyStoreOp, delete_pair, Option.map_eq_some'] at h
    obtain ⟨r, hr, rfl⟩ := h
    cases hs : slot (hash key) with
    | none => simp [hs] at hr
    | some index =>
      simp only [hs] at hr
      cases hd : delete_chain key (ht.table index) with
      | some chain =>
        simp only [hd, Option.some.injEq] at hr
        subst hr
        exact chainsNodup_update hinv (by rw [delete_chain_keys hd]; exact (hinv index).erase _)
      | none =>
        simp only [hd, Option.some.injEq] at hr
        subst hr
        exact hinv

theorem chainsNodup_runStore :
    ∀ {ops : List StoreOp} {ht ht1 : HashTable}, ChainsNodup ht →
      runStore ht ops = some ht1 → ChainsNodup ht1
  | [], ht, ht1, hinv, h => by
    simp only [runStore, Option.some.injEq] at h
    subst h; exact hinv
  | op :: ops, ht, ht1, hinv, h => by
    simp only [runStore] at h
    cases ha : applyStoreOp ht op with
    | none => simp [ha] at h
    | some ht2 =>
      simp only [ha] at h
      exact chainsNodup_runStore (chainsNodup_applyStoreOp hinv ha) h

/-- C2: on every table reached from the empty table by `write_pair` and
`delete_pair` calls, for every valid key: `delete_pair` returns 0 or 1; it
returns 0 exactly when `key_exists` reported the key before the call; after
a return of 0 both `read_pair` and `key_exists` report absence; after a
return of 1 the table is the one before the call. -/
theorem delete_pair_reports_removal (ops : List StoreOp) (ht : HashTable) (k : CStr)
    (hreach : runStore create_hash_table ops = some ht) (hk : ValidKey k) :
    ∃ r, delete_pair ht k = some r ∧
      (r.ret = 0 ∨ r.ret = 1) ∧
      (r.ret = 0 ↔ key_exists ht k = some 1) ∧
      (r.ret = 0 → read_pair r.ht k = some none ∧ key_exists r.ht k = some 0) ∧
      (r.ret = 1 → r.ht = ht) := by
  have hinv := chainsNodup_runStore chainsNodup_create hreach
  obtain ⟨index, hidx⟩ := slot_hash_of_valid hk
  unfold delete_pair read_pair key_exists
  simp only [hidx]
  cases hd : delete_chain k (ht.table index) with
  | some chain =>
    have hsome : read_chain k (ht.table index) ≠ none := fun hn =>
      by simp [delete_chain_eq_none_iff.mpr hn] at hd
    obtain ⟨v, hv⟩ := Option.ne_none_iff_exists'.mp hsome
    have hgone : read_chain k chain = none := by
      rw [read_chain_eq_none_iff, delete_chain_keys hd]
      exact fun hmem => (List.Nodup.mem_erase_iff (hinv index)).mp hmem |>.1 rfl
    refine ⟨_, rfl, Or.inl rfl, ?_, ?_, ?_⟩
    · simp [hv]
    · intro _
      simp [hgone]
    · intro h; simp at h
  | none =>
    have hnone := delete_chain_eq_none_iff.mp hd
    refine ⟨_, rfl, Or.inr rfl, ?_, ?_, ?_⟩
    · simp [hnone]
    · intro h; simp at h
    · intro _; rfl

/-- C2 witness: deleting "a" from the table reached by writing "a" and "b". -/
theorem delete_pair_reports_removal_witness :
    runStore create_hash_table [.write [97] [49], .write [98] [50]] = some storeAB ∧
    ValidKey [97] ∧
    ∃ r, delete_pair storeAB [97] = some r ∧
      (r.ret = 0 ∨ r.ret = 1) ∧
      (r.ret = 0 ↔ key_exists storeAB [97] = some 1) ∧
      (r.ret = 0 → read_pair r.ht [97] = some none ∧ key_exists r.ht [97] = some 0) ∧
      (r.ret = 1 → r.ht = storeAB) :=
  ⟨rfl, by decide,
    delete_pair_reports_removal [.write [97] [49], .write [98] [50]] storeAB [97] rfl
      (by decide)⟩

theorem read_pair_update_other {ht : HashTable} {k : CStr} {index : Fin TABLE_SIZE}
    {chain : List KeyNode}
    (hsame : slot (hash k) = some index → read_chain k chain = read_chain k (ht.table index)) :
    read_pair ⟨Function.update ht.table index chain⟩ k = read_pair ht k := by
  unfold read_pair
  cases hs : slot (hash k) with
  | none => rfl
  | some j =>
    by_cases hj : j = index
    · subst hj; simp [hsame hs]
    · simp [Function.update_noteq hj]

theorem read_pair_write_pair_other (ht : HashTable) {k k1 : CStr} (v1 : CStr)
    (hk1 : ValidKey k1) (hne : k ≠ k1) :
    ∃ r, write_pair ht k1 v1 = some r ∧ read_pair r.ht k = read_pair ht k := by
  obtain ⟨index, hidx⟩ := slot_hash_of_valid hk1
  unfold write_pair
  simp only [hidx]
  cases hw : write_chain k1 v1 (ht.table index) with
  | some chain =>
    exact ⟨_, rfl, read_pair_update_other fun _ => read_chain_write_chain_other hne hw⟩
  | none =>
    refine ⟨_, rfl, read_pair_update_other fun _ => ?_⟩
    have : ¬ k1 = k := fun e => hne e.symm
    simp [read_chain, this]

theorem read_pair_delete_pair_other (ht : HashTable) {k k1 : CStr}
    (hk1 : ValidKey k1) (hne : k ≠ k1) :
    ∃ r, delete_pair ht k1 = some r ∧ read_pair r.ht k = read_pair ht k := by
  obtain ⟨index, hidx⟩ := slot_hash_of_valid hk1
  unfold delete_pair
  simp only [hidx]
  cases hd : delete_chain k1 (ht.table index) with
  | some chain =>
    exact ⟨_, rfl, read_pair_update_other fun _ => read_chain_delete_chain_other hne hd⟩
  | none => exact ⟨_, rfl, rfl⟩

theorem read_pair_runStore_other {k : CStr} :
    ∀ (ops : List StoreOp) (ht : HashTable),
      (∀ op ∈ ops, ValidKey op.key ∧ op.key ≠ k) →
      ∃ ht1, runStore ht ops = some ht1 ∧ read_pair ht1 k = read_pair ht k
  | [], ht, _ => ⟨ht, rfl, rfl⟩
  | op :: ops, ht, hops => by
    obtain ⟨hv, hne⟩ := hops op (List.mem_cons_self _ _)
    have hstep : ∃ ht2, applyStoreOp ht op = some ht2 ∧ read_pair ht2 k = read_pair ht k := by
      cases op with
      | write k1 v1 =>
        obtain ⟨r, hr, hread⟩ := read_pair_write_pair_other ht v1 hv (Ne.symm hne)
        exact ⟨r.ht, by simp only [StoreOp.key] at hr; simp [applyStoreOp, hr], hread⟩
      | delete k1 =>
        obtain ⟨r, hr, hread⟩ := read_pair_delete_pair_other ht hv (Ne.symm hne)
        exact ⟨r.ht, by simp only [StoreOp.key] at hr; simp [applyStoreOp, hr], hread⟩
    obtain ⟨ht2, h2, hread2⟩ := hstep
    obtain ⟨ht1, h1, hread1⟩ :=
      read_pair_runStore_other ops ht2 fun o ho => hops o (List.mem_cons_of_mem _ ho)
    exact ⟨ht1, by simp [runStore, h2, h1], hread1.trans hread2⟩

/-- C3: for every store state and distinct valid keys `k`, `k1` (same chain
or not): `write_pair` and `delete_pair` of `k1` return and leave `read_pair`
of `k` as it was; hence after `write_pair` of `(k, v)` every sequence of
writes and deletes of other valid keys runs to a table on which `read_pair`
of `k` still returns `v`. -/
theorem other_keys_preserve_read_pair (ht : HashTable) (k k1 v v1 : CStr)
    (hk : ValidKey k) (hk1 : ValidKey k1) (hne : k ≠ k1) :
    (∃ r, write_pair ht k1 v1 = some r ∧ read_pair r.ht k = read_pair ht k) ∧
    (∃ r, delete_pair ht k1 = some r ∧ read_pair r.ht k = read_pair ht k) ∧
    (∃ r, write_pair ht k v = some r ∧
      ∀ ops : List StoreOp, (∀ op ∈ ops, ValidKey op.key ∧ op.key ≠ k) →
        ∃ ht1, runStore r.ht ops = some ht1 ∧ read_pair ht1 k = some (some v)) := by
  refine ⟨read_pair_write_pair_other ht v1 hk1 hne, read_pair_delete_pair_other ht hk1 hne, ?_⟩
  obtain ⟨r, hr, _, hread⟩ := read_pair_after_write_pair ht k v hk
  refine ⟨r, hr, fun ops hops => ?_⟩
  obtain ⟨ht1, h1, hread1⟩ := read_pair_runStore_other ops r.ht hops
  exact ⟨ht1, h1, hread1.trans hread⟩

/-- C3 witness: "a" and "ab" share a chain, "a" is already stored. -/
theorem other_keys_preserve_read_pair_witness :
    ValidKey [97] ∧ ValidKey [97, 98] ∧ ([97] : CStr) ≠ [97, 98] ∧
    (∃ r, write_pair storeA [97, 98] [50] = some r ∧ read_pair r.ht [97] = read_pair storeA [97]) ∧
    (∃ r, delete_pair storeA [97, 98] = some r ∧ read_pair r.ht [97] = read_pair storeA [97]) ∧
    (∃ r, write_pair storeA [97] [51] = some r ∧
      ∀ ops : List StoreOp, (∀ op ∈ ops, ValidKey op.key ∧ op.key ≠ [97]) →
        ∃ ht1, runStore r.ht ops = some ht1 ∧ read_pair ht1 [97] = some (some [51])) :=
  ⟨by decide, by decide, by decide,
    other_keys_preserve_read_pair storeA [97] [97, 98] [51] [50] (by decide) (by decide)
      (by decide)⟩

/-! ## Theorems: SUBSCRIBE and UNSUBSCRIBE on one session -/

theorem key_exists_of_valid (ht : HashTable) {key : CStr} (hk : ValidKey key) :
    key_exists ht key = some 0 ∨ key_exists ht key = some 1 := by
  obtain ⟨index, hidx⟩ := slot_hash_of_valid hk
  unfold key_exists
  simp only [hidx]
  cases read_chain key (ht.table index) <;> simp

/-- For every session holding fewer than `MAX_NUMBER_SUB` keys and every
request whose key starts with an ASCII letter or digit: the
SUBSCRIBE case replies `{3,1}` and appends the key at the end of
`subscribed_keys` when `key_exists` reports the key and the key is not yet
in `subscribed_keys`; in every other case it replies `{3,0}` and leaves the
session unchanged; so a second identical request after a `{3,1}` gets
`{3,0}`. -/
theorem handle_subscribe_below_capacity (ht : HashTable) (client_data : ClientData)
    (buffer : List Nat) (hvalid : ValidKey (request_key buffer))
    (hcap : client_data.subscribed_keys.length < MAX_NUMBER_SUB) :
    (key_exists ht (request_key buffer) = some 1 ∧
        request_key buffer ∉ client_data.subscribed_keys →
      handle_subscribe ht client_data buffer =
        some ({ client_data with
                subscribed_keys := client_data.subscribed_keys ++ [request_key buffer] },
              [3, 1]) ∧
      handle_subscribe ht
          { client_data with
            subscribed_keys := client_data.subscribed_keys ++ [request_key buffer] } buffer =
        some ({ client_data with
                subscribed_keys := client_data.subscribed_keys ++ [request_key buffer] },
              [3, 0])) ∧
    (¬ (key_exists ht (request_key buffer) = some 1 ∧
        request_key buffer ∉ client_data.subscribed_keys) →
      handle_subscribe ht client_data buffer = some (client_data, [3, 0])) := by
  unfold handle_subscribe
  rcases key_exists_of_valid ht hvalid with h0 | h1
  · simp [h0, OP_CODE_SUBSCRIBE]
  · constructor
    · rintro ⟨_, hnot⟩
      simp [h1, hnot, hcap, OP_CODE_SUBSCRIBE]
    · intro hneg
      have hmem : request_key buffer ∈ client_data.subscribed_keys := by
        by_contra hnot
        exact hneg ⟨h1, hnot⟩
      simp [h1, hmem, OP_CODE_SUBSCRIBE]

/-- An instance of `handle_subscribe_below_capacity`: an empty session
subscribing to the stored key "a". -/
theorem handle_subscribe_below_capacity_witness :
    ValidKey (request_key [3, 97]) ∧
    ClientData.zero.subscribed_keys.length < MAX_NUMBER_SUB ∧
    (key_exists storeA (request_key [3, 97]) = some 1 ∧
        request_key [3, 97] ∉ ClientData.zero.subscribed_keys →
      handle_subscribe storeA ClientData.zero [3, 97] =
        some ({ ClientData.zero with
                subscribed_keys := ClientData.zero.subscribed_keys ++ [request_key [3, 97]] },
              [3, 1]) ∧
      handle_subscribe storeA
          { ClientData.zero with
            subscribed_keys := ClientData.zero.subscribed_keys ++ [request_key [3, 97]] }
          [3, 97] =
        some ({ ClientData.zero with
                subscribed_keys := ClientData.zero.subscribed_keys ++ [request_key [3, 97]] },
              [3, 0])) ∧
    (¬ (key_exists storeA (request_key [3, 97]) = some 1 ∧
        request_key [3, 97] ∉ ClientData.zero.subscribed_keys) →
      handle_subscribe storeA ClientData.zero [3, 97] = some (ClientData.zero, [3, 0])) :=
  ⟨by decide, by decide,
    handle_subscribe_below_capacity storeA ClientData.zero [3, 97] (by decide) (by decide)⟩

/-- C4: a SUBSCRIBE for the key "!" (byte 33), which no store holds, on a
session without keys. `hash` returns -1, its marker of an invalid index, and
`key_exists` uses it unchecked to index the table outside its bounds: the
handler does not yield the reply `{3,0}` on an unchanged session. -/
theorem handle_subscribe_invalid_key :
    request_key [3, 33] = [33] ∧ hash [33] = -1 ∧
    ClientData.zero.subscribed_keys.length < MAX_NUMBER_SUB ∧
    handle_subscribe create_hash_table ClientData.zero [3, 33] = none ∧
    handle_subscribe create_hash_table ClientData.zero [3, 33] ≠
      some (ClientData.zero, [3, 0]) := by
  decide

theorem remove_key_eq (key : CStr) :
    ∀ keys : List CStr,
      remove_key key keys = if key ∈ keys then some (keys.erase key) else none
  | [] => by simp [remove_key]
  | k :: rest => by
    by_cases hk : k = key
    · subst hk; simp [remove_key]
    · have hne : ¬ key = k := fun e => hk e.symm
      have hbeq : ¬ (k == key) = true := by simpa using hk
      simp only [remove_key, hk, if_false, remove_key_eq key rest, List.mem_cons, hne,
        false_or, List.erase_cons_tail hbeq]
      split_ifs <;> simp

theorem handle_subscribe_success_below_capacity {ht : HashTable} {client_data client_data1 : ClientData}
    {buffer : List Nat} (hcap : client_data.subscribed_keys.length < MAX_NUMBER_SUB)
    (h : handle_subscribe ht client_data buffer = some (client_data1, [3, 1])) :
    request_key buffer ∉ client_data.subscribed_keys ∧
    client_data1 = { client_data with
      subscribed_keys := client_data.subscribed_keys ++ [request_key buffer] } := by
  unfold handle_subscribe at h
  cases hex : key_exists ht (request_key buffer) with
  | none => simp [hex] at h
  | some found =>
    simp only [hex] at h
    by_cases hfound : found = 0
    · simp [hfound, OP_CODE_SUBSCRIBE] at h
    · by_cases hmem : request_key buffer ∈ client_data.subscribed_keys
      · simp [hfound, hmem, OP_CODE_SUBSCRIBE] at h
      · simp [hfound, hmem, hcap, OP_CODE_SUBSCRIBE] at h
        exact ⟨hmem, h.symm⟩

/-- For every session and request, the UNSUBSCRIBE case
replies `{4,0}` and drops the first row equal to the key when the key is in
`subscribed_keys` (the other rows keep their order, the count goes down by
one, and a duplicate-free session no longer holds the key), and replies
`{4,1}` leaving the session unchanged when it is not. For a session holding
fewer than `MAX_NUMBER_SUB` keys, a SUBSCRIBE answered `{3,1}` followed by
two UNSUBSCRIBE of the same key gets `{4,0}` then `{4,1}`. -/
theorem handle_unsubscribe_spec (client_data : ClientData) (buffer : List Nat) :
    (request_key buffer ∈ client_data.subscribed_keys →
      handle_unsubscribe client_data buffer =
        ({ client_data with
           subscribed_keys := client_data.subscribed_keys.erase (request_key buffer) },
         [4, 0]) ∧
      (client_data.subscribed_keys.erase (request_key buffer)).length + 1 =
        client_data.subscribed_keys.length ∧
      (client_data.subscribed_keys.erase (request_key buffer)).Sublist
        client_data.subscribed_keys ∧
      (client_data.subscribed_keys.Nodup →
        request_key buffer ∉ client_data.subscribed_keys.erase (request_key buffer))) ∧
    (request_key buffer ∉ client_data.subscribed_keys →
      handle_unsubscribe client_data buffer = (client_data, [4, 1])) ∧
    (∀ (ht : HashTable) (client_data1 : ClientData),
      client_data.subscribed_keys.length < MAX_NUMBER_SUB →
      handle_subscribe ht client_data buffer = some (client_data1, [3, 1]) →
      handle_unsubscribe client_data1 buffer = (client_data, [4, 0]) ∧
      handle_unsubscribe client_data buffer = (client_data, [4, 1])) := by
  refine ⟨fun hmem => ⟨?_, ?_, List.erase_sublist _ _, fun hnd => ?_⟩, fun hnot => ?_,
    fun ht client_data1 hcap hsub => ?_⟩
  · simp [handle_unsubscribe, remove_key_eq, hmem, OP_CODE_UNSUBSCRIBE]
  · rw [List.length_erase_of_mem hmem]
    have := List.length_pos_of_mem hmem
    omega
  · exact fun h => ((List.Nodup.mem_erase_iff hnd).mp h).1 rfl
  · simp [handle_unsubscribe, remove_key_eq, hnot, OP_CODE_UNSUBSCRIBE]
  · obtain ⟨hnot, rfl⟩ := handle_subscribe_success_below_capacity hcap hsub
    constructor
    · have hlast : (client_data.subscribed_keys ++ [request_key buffer]).erase
          (request_key buffer) = client_data.subscribed_keys := by
        rw [List.erase_append_right _ hnot]; simp
      simp [handle_unsubscribe, remove_key_eq, hlast, OP_CODE_UNSUBSCRIBE]
    · simp [handle_unsubscribe, remove_key_eq, hnot, OP_CODE_UNSUBSCRIBE]

/-- C5: a session that holds `MAX_NUMBER_SUB` keys, none of them "a", while
the store holds "a". SUBSCRIBE "a" is answered `{3,1}` without storing the
key, and the UNSUBSCRIBE "a" that follows is answered `{4,1}`, not `{4,0}`. -/
theorem subscribe_unsubscribe_full_session :
    fullSession.subscribed_keys.length = MAX_NUMBER_SUB ∧
    handle_subscribe storeA fullSession [3, 97] = some (fullSession, [3, 1]) ∧
    handle_unsubscribe fullSession [4, 97] = (fullSession, [4, 1]) := by
  decide

/-- C8: for a session that holds `MAX_NUMBER_SUB` keys and a key that
`key_exists` reports and that is not among them, the SUBSCRIBE case leaves
the session unchanged and replies with result byte 1, the success value. -/
theorem handle_subscribe_at_capacity (ht : HashTable) (client_data : ClientData)
    (buffer : List Nat)
    (hfull : client_data.subscribed_keys.length = MAX_NUMBER_SUB)
    (hexists : key_exists ht (request_key buffer) = some 1)
    (hnot : request_key buffer ∉ client_data.subscribed_keys) :
    handle_subscribe ht client_data buffer = some (client_data, [3, 1]) := by
  simp [handle_subscribe, hexists, hnot, hfull, OP_CODE_SUBSCRIBE]

/-- C8 witness: the full session of keys "a0", "a1", … and the key "a". -/
theorem handle_subscribe_at_capacity_witness :
    fullSession.subscribed_keys.length = MAX_NUMBER_SUB ∧
    key_exists storeA (request_key [3, 97, 32, 32]) = some 1 ∧
    request_key [3, 97, 32, 32] ∉ fullSession.subscribed_keys ∧
    handle_subscribe storeA fullSession [3, 97, 32, 32] = some (fullSession, [3, 1]) :=
  ⟨by decide, by decide, by decide,
    handle_subscribe_at_capacity storeA fullSession [3, 97, 32, 32] (by decide) (by decide)
      (by decide)⟩

/-! ## Theorems: the listener and DISCONNECT on the session table -/

theorem free_slot_eq_none {clients : List ClientData} :
    free_slot clients = none ↔ ∀ c ∈ clients, c.active ≠ 0 := by
  induction clients with
  | nil => simp [free_slot]
  | cons c rest ih =>
    by_cases hc : c.active = 0
    · simp [free_slot, hc]
    · simp [free_slot, hc, ih]

/-- C9: when every slot of the session table is active, one pass of the
listener leaves the table as it is, creates no handler thread and writes
nothing to the response pipe named in the frame: the `continue` after the
failed slot search comes before the reply is built, so `{CONNECT, 1}` is
never sent. -/
theorem client_listener_full_table (st : Server) (frame : Frame)
    (hfull : ∀ c ∈ st.clients, c.active ≠ 0) :
    client_listener st frame = ⟨st, none, none⟩ := by
  unfold client_listener
  rw [free_slot_eq_none.mpr hfull]

/-- C9 witness: `MAX_NUMBER_SUB` connects from the start state are each
answered `{CONNECT, 0}` and fill the table; the next frame gets no reply. -/
theorem client_listener_full_table_witness :
    run Server.init (connectFrames.map ServerOp.connect) = some fullTable ∧
    connect_responses Server.init connectFrames =
      List.replicate MAX_NUMBER_SUB (some [1, 0]) ∧
    (∀ c ∈ fullTable.clients, c.active ≠ 0) ∧
    client_listener fullTable frameA = ⟨fullTable, none, none⟩ :=
  ⟨by decide, by decide, by decide, client_listener_full_table fullTable frameA (by decide)⟩

/-- C10: after CONNECT of a client, its DISCONNECT, and CONNECT of a second
client (request paths never in use twice at a time), slots 0 and 1 are both
active with the request path of the second client: `add_client` copies the
slot the listener just filled into `clients[num_clients]`. -/
theorem duplicate_active_entry_after_reconnect :
    distinct_paths Server.init reconnectOps = true ∧
    ∃ st, run Server.init reconnectOps = some st ∧
      st.clients[0]? = some ⟨[100], [101], [102], 1, []⟩ ∧
      st.clients[1]? = some ⟨[100], [101], [102], 1, []⟩ ∧
      ¬ AtMostOneActivePerPath st := by
  refine ⟨by decide, _, rfl, rfl, rfl, fun h => ?_⟩
  have h01 := h 0 1 _ _ rfl rfl (by decide) (by decide) rfl
  exact absurd h01 (by decide)

/-- C7: a connected client whose DISCONNECT frees another slot. After the
events `ghostOps` the handler of slot 3 serves the client with request path
"a", subscribed to the key "a"; slot 1 holds a stale active copy with the
same path. Its DISCONNECT is answered `{2,0}` and the thread exits, but
`remove_client` clears slot 1: slot 3 stays active with its subscription and
a later `notify_clients` for "a" still issues a write on slot 3. -/
theorem disconnect_frees_other_slot :
    distinct_paths Server.init ghostOps = true ∧
    ∃ st, run Server.init ghostOps = some st ∧
      3 ∈ st.handlers ∧
      st.clients[3]? = some ⟨[97], [98], [99], 1, [[97]]⟩ ∧
      ∃ r, client_handler st storeA 3 [2] = some r ∧
        r.response = some [2, 0] ∧ r.exited = true ∧
        r.st.clients[3]? = some ⟨[97], [98], [99], 1, [[97]]⟩ ∧
        r.st.clients[1]? = some ⟨[97], [98], [99], 0, []⟩ ∧
        notify_clients r.st [97] [50] = [(3, [40, 97, 44, 50, 41, 10])] := by
  refine ⟨by decide, _, rfl, by decide, rfl, _, rfl, rfl, rfl, rfl, rfl, rfl⟩

/-! ## Theorems: the notifier on reachable session tables -/

theorem getElem?_map_first (f : ClientData → ClientData) :
    ∀ (n : Nat) (clients : List ClientData) (j : Nat),
      (map_first f n clients)[j]? = if j < n then (clients[j]?).map f else clients[j]?
  | 0, clients, j => by simp [map_first]
  | n + 1, [], j => by simp [map_first]
  | n + 1, c :: rest, 0 => by simp [map_first]
  | n + 1, c :: rest, j + 1 => by
    simp only [map_first, List.getElem?_cons_succ, getElem?_map_first f n rest j,
      Nat.add_lt_add_iff_right]

theorem length_map_first (f : ClientData → ClientData) :
    ∀ (n : Nat) (clients : List ClientData), (map_first f n clients).length = clients.length
  | 0, clients => by simp [map_first]
  | n + 1, [] => by simp [map_first]
  | n + 1, c :: rest => by simp [map_first, length_map_first f n rest]

theorem free_slot_eq_some :
    ∀ {clients : List ClientData} {i : Nat}, free_slot clients = some i →
      (∃ c, clients[i]? = some c ∧ c.active = 0) ∧
      ∀ (j : Nat) (cj : ClientData), j < i → clients[j]? = some cj → cj.active ≠ 0
  | [], i, h => by simp [free_slot] at h
  | c :: rest, i, h => by
    by_cases hc : c.active = 0
    · simp only [free_slot, hc, if_true, Option.some.injEq] at h
      subst h
      exact ⟨⟨c, by simp, hc⟩, fun j cj hj => absurd hj (Nat.not_lt_zero j)⟩
    · simp only [free_slot, hc, if_false, Option.map_eq_some'] at h
      obtain ⟨k, hk, rfl⟩ := h
      obtain ⟨⟨c1, hc1, hact⟩, hmin⟩ := free_slot_eq_some hk
      refine ⟨⟨c1, by simpa using hc1, hact⟩, fun j cj hj hlook => ?_⟩
      cases j with
      | zero =>
        simp only [List.getElem?_cons_zero, Option.some.injEq] at hlook
        subst hlook; exact hc
      | succ j =>
        exact hmin j cj (by omega) (by simpa using hlook)

theorem find_path_eq_some {req_pipe_path : CStr} :
    ∀ {clients : List ClientData} {i : Nat}, find_path req_pipe_path clients = some i →
      ∃ c, clients[i]? = some c ∧ c.req_pipe_path = req_pipe_path
  | [], i, h => by simp [find_path] at h
  | c :: rest, i, h => by
    by_cases hc : c.req_pipe_path = req_pipe_path
    · simp only [find_path, hc, if_true, Option.some.injEq] at h
      subst h
      exact ⟨c, by simp, hc⟩
    · simp only [find_path, hc, if_false, Option.map_eq_some'] at h
      obtain ⟨k, hk, rfl⟩ := h
      obtain ⟨c1, hc1, hpath⟩ := find_path_eq_some hk
      exact ⟨c1, by simpa using hc1, hpath⟩

theorem tableInv_init : TableInv Server.init := by
  have hlook : ∀ (i : Nat) (c : ClientData), Server.init.clients[i]? = some c →
      c = ClientData.zero := by
    intro i c h
    simp only [Server.init, List.getElem?_replicate] at h
    split_ifs at h
    exact (Option.some.inj h).symm
  refine ⟨by simp [Server.init], fun i c h _ => ?_, fun i c h _ => ?_, fun i c h => ?_,
    fun h hh => ?_, ?_⟩
  · rw [hlook i c h]; rfl
  · rw [hlook i c h]; rfl
  · rw [hlook i c h]; exact List.nodup_nil
  · simp [Server.init] at hh
  · simp [Server.init]

theorem pathsDiffer_symm {st : Server} {a b : Nat} (h : PathsDiffer st a b) :
    PathsDiffer st b a :=
  fun ca cb ha hb e => h cb ca hb ha e.symm

theorem handlers_nodup {st : Server} (hinv : TableInv st) : st.handlers.Nodup := by
  refine hinv.handler_paths.imp_of_mem ?_
  intro a b ha _ hR hab
  subst hab
  obtain ⟨c, hc, _⟩ := hinv.handler_active a ha
  exact hR c c hc hc rfl

theorem handlers_paths_differ {st : Server} (hinv : TableInv st) {a b : Nat}
    (ha : a ∈ st.handlers) (hb : b ∈ st.handlers) (hab : a ≠ b) : PathsDiffer st a b :=
  hinv.handler_paths.forall (fun _ _ h => pathsDiffer_symm h) ha hb hab

theorem handler_lt_num_clients {st : Server} (hinv : TableInv st) {h : Nat}
    (hh : h ∈ st.handlers) : h < st.num_clients := by
  obtain ⟨c, hc, hact⟩ := hinv.handler_active h hh
  by_contra hge
  exact hact (hinv.beyond h c hc (Nat.le_of_not_lt hge))

theorem tableInv_of_slotStep {st : Server} (hinv : TableInv st)
    (clients1 : List ClientData) (sig : Int) (handlers1 : List Nat)
    (hlen : clients1.length = st.clients.length)
    (hslots : ∀ (i : Nat) (c1 : ClientData), clients1[i]? = some c1 →
      ∃ c, st.clients[i]? = some c ∧ SlotStep c c1)
    (hsub : handlers1.Sublist st.handlers)
    (hkeep : ∀ h ∈ handlers1, ∀ c c1 : ClientData, st.clients[h]? = some c →
      clients1[h]? = some c1 → c1.active = c.active ∧ c1.req_pipe_path = c.req_pipe_path) :
    TableInv ⟨clients1, st.num_clients, sig, handlers1⟩ := by
  have hexists : ∀ h ∈ handlers1, ∃ c c1, st.clients[h]? = some c ∧ clients1[h]? = some c1 ∧
      c.active ≠ 0 := by
    intro h hh
    obtain ⟨c, hc, hact⟩ := hinv.handler_active h (hsub.subset hh)
    have hlt : h < clients1.length := by
      rw [hlen]; exact (List.getElem?_eq_some_iff.mp hc).1
    exact ⟨c, clients1[h], hc, List.getElem?_eq_getElem hlt, hact⟩
  refine ⟨hlen.trans hinv.length_eq, ?_, ?_, ?_, ?_, ?_⟩
  · intro i c1 h1 hi
    obtain ⟨c, hc, hstep⟩ := hslots i c1 h1
    rcases hstep with rfl | ⟨_, hact, _, _⟩ | ⟨hact, _⟩
    · exact hinv.beyond i _ hc hi
    · rw [hact]; exact hinv.beyond i c hc hi
    · exact hact
  · intro i c1 h1 h0
    obtain ⟨c, hc, hstep⟩ := hslots i c1 h1
    rcases hstep with rfl | ⟨hne, hact, _, _⟩ | ⟨_, hkeys⟩
    · exact hinv.inactive_empty i _ hc h0
    · exact absurd (hact ▸ h0) hne
    · exact hkeys
  · intro i c1 h1
    obtain ⟨c, hc, hstep⟩ := hslots i c1 h1
    rcases hstep with rfl | ⟨_, _, _, hnd⟩ | ⟨_, hkeys⟩
    · exact hinv.nodup i _ hc
    · exact hnd
    · rw [hkeys]; exact List.nodup_nil
  · intro h hh
    obtain ⟨c, c1, hc, hc1, hact⟩ := hexists h hh
    exact ⟨c1, hc1, by rw [(hkeep h hh c c1 hc hc1).1]; exact hact⟩
  · refine (hinv.handler_paths.sublist hsub).imp_of_mem ?_
    intro a b ha hb hR ca1 cb1 hca1 hcb1
    obtain ⟨ca, _, hca, hca1', _⟩ := hexists a ha
    obtain ⟨cb, _, hcb, hcb1', _⟩ := hexists b hb
    rw [hca1] at hca1'; rw [hcb1] at hcb1'
    cases hca1'; cases hcb1'
    rw [(hkeep a ha ca ca1 hca hca1).2, (hkeep b hb cb cb1 hcb hcb1).2]
    exact hR ca cb hca hcb

theorem tableInv_set_session {st : Server} (hinv : TableInv st) {slot : Nat}
    {cd cd1 : ClientData} (hslot : slot ∈ st.handlers) (hcd : st.clients[slot]? = some cd)
    (hact : cd1.active = cd.active) (hpath : cd1.req_pipe_path = cd.req_pipe_path)
    (hnd : cd1.subscribed_keys.Nodup) :
    TableInv { st with clients := st.clients.set slot cd1 } := by
  have hactive : cd.active ≠ 0 := by
    obtain ⟨c, hc, hne⟩ := hinv.handler_active slot hslot
    rw [hcd] at hc; cases hc; exact hne
  refine tableInv_of_slotStep hinv (st.clients.set slot cd1) st.sigusr1_received st.handlers
    (by simp) ?_ (List.Sublist.refl _) ?_
  · intro i c1 h1
    rw [List.getElem?_set] at h1
    by_cases hi : slot = i
    · subst hi
      rw [if_pos rfl] at h1
      split_ifs at h1
      cases h1
      exact ⟨cd, hcd, Or.inr (Or.inl ⟨hactive, hact, hpath, hnd⟩)⟩
    · rw [if_neg hi] at h1
      exact ⟨c1, h1, Or.inl rfl⟩
  · intro h _ c c1 hc h1
    rw [List.getElem?_set] at h1
    by_cases hi : slot = h
    · subst hi
      rw [if_pos rfl] at h1
      split_ifs at h1
      cases h1
      rw [hcd] at hc; cases hc
      exact ⟨hact, hpath⟩
    · rw [if_neg hi, hc] at h1
      cases h1
      exact ⟨rfl, rfl⟩

theorem handle_subscribe_session {ht : HashTable} {cd cd1 : ClientData} {buffer : List Nat}
    {response : List Int} (h : handle_subscribe ht cd buffer = some (cd1, response)) :
    cd1.active = cd.active ∧ cd1.req_pipe_path = cd.req_pipe_path ∧
    (cd.subscribed_keys.Nodup → cd1.subscribed_keys.Nodup) := by
  unfold handle_subscribe at h
  cases hex : key_exists ht (request_key buffer) with
  | none => simp [hex] at h
  | some found =>
    simp only [hex] at h
    by_cases hfound : found = 0
    · simp only [hfound, ne_eq, not_true_eq_false, if_false, Option.some.injEq,
        Prod.mk.injEq] at h
      obtain ⟨rfl, _⟩ := h
      exact ⟨rfl, rfl, id⟩
    · simp only [ne_eq, hfound, not_false_eq_true, if_true, Option.some.injEq,
        Prod.mk.injEq] at h
      obtain ⟨rfl, _⟩ := h
      by_cases hmem : request_key buffer ∈ cd.subscribed_keys
      · simp [hmem]
      · by_cases hcap : cd.subscribed_keys.length < MAX_NUMBER_SUB
        · simp only [hmem, if_false, hcap, and_self, if_true, true_and]
          intro hnd
          exact List.Nodup.append hnd (List.nodup_singleton _) (by simpa using hmem)
        · simp [hmem, hcap]

theorem handle_unsubscribe_session (cd : ClientData) (buffer : List Nat) :
    (handle_unsubscribe cd buffer).1.active = cd.active ∧
    (handle_unsubscribe cd buffer).1.req_pipe_path = cd.req_pipe_path ∧
    (cd.subscribed_keys.Nodup → (handle_unsubscribe cd buffer).1.subscribed_keys.Nodup) := by
  by_cases hmem : request_key buffer ∈ cd.subscribed_keys
  · simp only [handle_unsubscribe, remove_key_eq, hmem, if_true, true_and]
    exact fun hnd => hnd.erase _
  · simp [handle_unsubscribe, remove_key_eq, hmem]

theorem tableInv_disconnect {st : Server} (hinv : TableInv st) {slot : Nat} {cd : ClientData}
    (hslot : slot ∈ st.handlers) (hcd : st.clients[slot]? = some cd) :
    TableInv { (remove_client st cd.req_pipe_path).1 with
      handlers := (remove_client st cd.req_pipe_path).1.handlers.erase slot } := by
  unfold remove_client
  cases hfind : find_path cd.req_pipe_path (st.clients.take st.num_clients) with
  | none =>
    exact tableInv_of_slotStep hinv st.clients st.sigusr1_received (st.handlers.erase slot) rfl
      (fun i c1 h => ⟨c1, h, Or.inl rfl⟩) (List.erase_sublist _ _)
      (fun h _ c c1 hc h1 => by rw [hc] at h1; cases h1; exact ⟨rfl, rfl⟩)
  | some i =>
    obtain ⟨c0, hc0, hpath0⟩ := find_path_eq_some hfind
    have hc0' : st.clients[i]? = some c0 := by
      rw [List.getElem?_take] at hc0
      split_ifs at hc0
      exact hc0
    refine tableInv_of_slotStep hinv _ st.sigusr1_received (st.handlers.erase slot)
      (by simp) ?_ (List.erase_sublist _ _) ?_
    · intro j c1 h1
      rw [List.getElem?_modify] at h1
      cases hj : st.clients[j]? with
      | none => simp [hj] at h1
      | some c =>
        simp only [hj, Option.map_eq_map, Option.map_some', Option.some.injEq] at h1
        refine ⟨c, rfl, ?_⟩
        by_cases hij : i = j
        · rw [if_pos hij] at h1
          subst h1
          exact Or.inr (Or.inr ⟨rfl, rfl⟩)
        · rw [if_neg hij] at h1
          exact Or.inl h1.symm
    · intro h hh c c1 hc h1
      obtain ⟨hne, hmem⟩ := (List.Nodup.mem_erase_iff (handlers_nodup hinv)).mp hh
      have hdiff := handlers_paths_differ hinv hmem hslot hne c cd hc hcd
      have hih : i ≠ h := by
        intro e
        subst e
        rw [hc0'] at hc; cases hc
        exact hdiff hpath0
      rw [List.getElem?_modify_ne _ _ hih, hc] at h1
      cases h1
      exact ⟨rfl, rfl⟩

theorem tableInv_client_handler {st : Server} (hinv : TableInv st) {ht : HashTable}
    {slot : Nat} {buffer : List Nat} {r : HandlerResult} (hslot : slot ∈ st.handlers)
    (h : client_handler st ht slot buffer = some r) : TableInv r.st := by
  unfold client_handler at h
  cases hcd : st.clients[slot]? with
  | none => simp [hcd] at h
  | some cd =>
    simp only [hcd] at h
    split_ifs at h with h3 h4 h2
    · cases hsub : handle_subscribe ht cd buffer with
      | none => simp [hsub] at h
      | some res =>
        obtain ⟨cd1, response⟩ := res
        simp only [hsub, Option.some.injEq] at h
        subst h
        obtain ⟨hact, hpath, hnd⟩ := handle_subscribe_session hsub
        exact tableInv_set_session hinv hslot hcd hact hpath (hnd (hinv.nodup slot cd hcd))
    · simp only [Option.some.injEq] at h
      subst h
      obtain ⟨hact, hpath, hnd⟩ := handle_unsubscribe_session cd buffer
      exact tableInv_set_session hinv hslot hcd hact hpath (hnd (hinv.nodup slot cd hcd))
    · simp only [Option.some.injEq] at h
      subst h
      exact tableInv_disconnect hinv hslot hcd
    · simp only [Option.some.injEq] at h
      subst h
      exact hinv

theorem path_in_use_eq_false {st : Server} {req_pipe_path : CStr}
    (h : path_in_use st req_pipe_path = false) :
    ∀ a ∈ st.handlers, ∀ c : ClientData, st.clients[a]? = some c →
      c.req_pipe_path ≠ req_pipe_path := by
  intro a ha c hc
  unfold path_in_use at h
  rw [List.any_eq_false] at h
  have := h a ha
  simpa [hc] using this

theorem tableInv_admit {st : Server} (hinv : TableInv st) {cid : Nat} {c0 : ClientData}
    (new : ClientData)
    (hc0 : st.clients[cid]? = some c0) (hact0 : c0.active = 0)
    (hmin : ∀ (j : Nat) (cj : ClientData), j < cid → st.clients[j]? = some cj → cj.active ≠ 0)
    (hnew : new.active ≠ 0) (hkeys : new.subscribed_keys = [])
    (hfresh : ∀ a ∈ st.handlers, ∀ c : ClientData, st.clients[a]? = some c →
      c.req_pipe_path ≠ new.req_pipe_path)
    (num1 : Nat) (handlers1 : List Nat)
    (hcase : (st.num_clients < MAX_NUMBER_SUB ∧ num1 = st.num_clients + 1 ∧
        handlers1 = cid :: st.handlers) ∨
      (MAX_NUMBER_SUB ≤ st.num_clients ∧ num1 = st.num_clients ∧ handlers1 = st.handlers)) :
    TableInv ⟨(st.clients.set cid new).set st.num_clients new, num1, st.sigusr1_received,
      handlers1⟩ := by
  have hcid : cid < st.clients.length := (List.getElem?_eq_some_iff.mp hc0).1
  have hlen := hinv.length_eq
  -- the slot chosen by the listener is not above `num_clients`
  have hle : st.num_clients < MAX_NUMBER_SUB → cid ≤ st.num_clients := by
    intro hlt
    by_contra hgt
    have hn : st.num_clients < st.clients.length := by omega
    have hlook := List.getElem?_eq_getElem hn
    exact hmin _ _ (by omega) hlook (hinv.beyond _ _ hlook (Nat.le_refl _))
  have hlookup : ∀ (j : Nat) (c1 : ClientData),
      ((st.clients.set cid new).set st.num_clients new)[j]? = some c1 →
      (c1 = new ∧ (j = cid ∨ (j = st.num_clients ∧ st.num_clients < MAX_NUMBER_SUB))) ∨
      (st.clients[j]? = some c1 ∧ j ≠ cid) := by
    intro j c1 h1
    rw [List.getElem?_set, List.length_set] at h1
    by_cases hj : st.num_clients = j
    · rw [if_pos hj] at h1
      split_ifs at h1 with hlt
      cases h1
      exact Or.inl ⟨rfl, Or.inr ⟨hj.symm, by omega⟩⟩
    · rw [if_neg hj, List.getElem?_set] at h1
      by_cases hcj : cid = j
      · rw [if_pos hcj] at h1
        split_ifs at h1
        cases h1
        exact Or.inl ⟨rfl, Or.inl hcj.symm⟩
      · rw [if_neg hcj] at h1
        exact Or.inr ⟨h1, fun e => hcj e.symm⟩
  have hnew_at : ((st.clients.set cid new).set st.num_clients new)[cid]? = some new := by
    rw [List.getElem?_set, List.length_set]
    by_cases hj : st.num_clients = cid
    · rw [if_pos hj, if_pos (by omega)]
    · rw [if_neg hj, List.getElem?_set, if_pos rfl, if_pos hcid]
  have hold : ∀ a ∈ st.handlers, ∀ c1 : ClientData,
      ((st.clients.set cid new).set st.num_clients new)[a]? = some c1 →
      st.clients[a]? = some c1 := by
    intro a ha c1 h1
    obtain ⟨c, hc, hact⟩ := hinv.handler_active a ha
    have hlt := handler_lt_num_clients hinv ha
    rcases hlookup a c1 h1 with ⟨_, hpos⟩ | ⟨h, _⟩
    · rcases hpos with rfl | ⟨rfl, _⟩
      · rw [hc0] at hc; cases hc; exact absurd hact0 hact
      · omega
    · exact h
  have hnum : st.num_clients ≤ num1 := by
    rcases hcase with ⟨_, h, _⟩ | ⟨_, h, _⟩ <;> omega
  have hsubset : ∀ a ∈ handlers1, a = cid ∨ a ∈ st.handlers := by
    intro a ha
    rcases hcase with ⟨_, _, h⟩ | ⟨_, _, h⟩
    · rw [h] at ha; simpa using ha
    · rw [h] at ha; exact Or.inr ha
  have hpair : st.handlers.Pairwise
      (PathsDiffer ⟨(st.clients.set cid new).set st.num_clients new, num1,
        st.sigusr1_received, handlers1⟩) := by
    refine hinv.handler_paths.imp_of_mem ?_
    intro a b ha hb hR ca cb hca hcb
    exact hR ca cb (hold a ha ca hca) (hold b hb cb hcb)
  refine ⟨by simp [hlen], ?_, ?_, ?_, ?_, ?_⟩
  · intro j c1 h1 hj
    have hj' : num1 ≤ j := hj
    rcases hlookup j c1 h1 with ⟨_, hpos⟩ | ⟨h, _⟩
    · exfalso
      have hjlt : j < MAX_NUMBER_SUB := by
        have := (List.getElem?_eq_some_iff.mp h1).1
        simpa [hlen] using this
      rcases hcase with ⟨hlt, hn, _⟩ | ⟨hge, hn, _⟩
      · have := hle hlt
        rcases hpos with rfl | ⟨rfl, _⟩ <;> omega
      · omega
    · exact hinv.beyond j c1 h (Nat.le_trans hnum hj')
  · intro j c1 h1 h0
    rcases hlookup j c1 h1 with ⟨rfl, _⟩ | ⟨h, _⟩
    · exact absurd h0 hnew
    · exact hinv.inactive_empty j c1 h h0
  · intro j c1 h1
    rcases hlookup j c1 h1 with ⟨rfl, _⟩ | ⟨h, _⟩
    · rw [hkeys]; exact List.nodup_nil
    · exact hinv.nodup j c1 h
  · intro a ha
    rcases hsubset a ha with rfl | hmem
    · exact ⟨new, hnew_at, hnew⟩
    · obtain ⟨c, hc, hact⟩ := hinv.handler_active a hmem
      have hlt : a < ((st.clients.set cid new).set st.num_clients new).length := by
        simpa using (List.getElem?_eq_some_iff.mp hc).1
      have h1 := List.getElem?_eq_getElem hlt
      have h2 := hold a hmem _ h1
      rw [hc] at h2; cases h2
      exact ⟨_, h1, hact⟩
  · rcases hcase with ⟨_, _, h⟩ | ⟨_, _, h⟩
    · show List.Pairwise _ handlers1
      rw [h, List.pairwise_cons]
      refine ⟨fun b hb ca cb hca hcb => ?_, hpair⟩
      have hca' : ((st.clients.set cid new).set st.num_clients new)[cid]? = some ca := hca
      rw [hnew_at] at hca'
      cases hca'
      exact (hfresh b hb cb (hold b hb cb hcb)).symm
    · show List.Pairwise _ handlers1
      rw [h]
      exact hpair

theorem tableInv_client_listener {st : Server} (hinv : TableInv st) {frame : Frame}
    (hfresh : path_in_use st frame.req_pipe_path = false) :
    TableInv (client_listener st frame).st := by
  unfold client_listener
  cases hfree : free_slot st.clients with
  | none => exact hinv
  | some cid =>
    obtain ⟨⟨c0, hc0, hact0⟩, hmin⟩ := free_slot_eq_some hfree
    have hget : st.clients.getD cid ClientData.zero = c0 := by
      rw [List.getD_eq_getElem?_getD, hc0]; rfl
    simp only [hget, hact0, if_true]
    by_cases hnum : st.num_clients ≥ MAX_NUMBER_SUB
    · have hset : (st.clients.set cid
            ⟨frame.req_pipe_path, frame.resp_pipe_path, frame.notif_pipe_path, 1, []⟩).set
            st.num_clients
            ⟨frame.req_pipe_path, frame.resp_pipe_path, frame.notif_pipe_path, 1, []⟩ =
          st.clients.set cid
            ⟨frame.req_pipe_path, frame.resp_pipe_path, frame.notif_pipe_path, 1, []⟩ :=
        List.set_eq_of_length_le (by simp [hinv.length_eq]; exact hnum)
      have := tableInv_admit hinv
        ⟨frame.req_pipe_path, frame.resp_pipe_path, frame.notif_pipe_path, 1, []⟩
        hc0 hact0 hmin (by simp) rfl
        (path_in_use_eq_false hfresh) st.num_clients st.handlers (Or.inr ⟨hnum, rfl, rfl⟩)
      rw [hset] at this
      simpa [add_client, hnum] using this
    · have := tableInv_admit hinv
        ⟨frame.req_pipe_path, frame.resp_pipe_path, frame.notif_pipe_path, 1, []⟩
        hc0 hact0 hmin (by simp) rfl
        (path_in_use_eq_false hfresh) (st.num_clients + 1) (cid :: st.handlers)
        (Or.inl ⟨Nat.lt_of_not_le hnum, rfl, rfl⟩)
      simpa [add_client, hnum] using this

theorem tableInv_run :
    ∀ (ops : List ServerOp) (st st1 : Server), TableInv st → run st ops = some st1 →
      distinct_paths st ops = true → no_signal ops = true → TableInv st1
  | [], st, st1, hinv, hrun, _, _ => by
    simp only [run, Option.some.injEq] at hrun
    subst hrun; exact hinv
  | op :: ops, st, st1, hinv, hrun, hdist, hsig => by
    simp only [run] at hrun
    simp only [distinct_paths, Bool.and_eq_true] at hdist
    cases hstep : step st op with
    | none => simp [hstep] at hrun
    | some st2 =>
      simp only [hstep] at hrun hdist
      cases op with
      | connect frame =>
        simp only [step, Option.some.injEq] at hstep
        subst hstep
        exact tableInv_run ops _ st1
          (tableInv_client_listener hinv (by simpa using hdist.1)) hrun hdist.2 hsig
      | request slot ht buffer =>
        simp only [step] at hstep
        split_ifs at hstep with hcond
        obtain ⟨r, hr, rfl⟩ := Option.map_eq_some'.mp hstep
        exact tableInv_run ops _ st1 (tableInv_client_handler hinv hcond.1 hr) hrun hdist.2 hsig
      | sigusr1 => simp [no_signal] at hsig

theorem notify_loop_filter (key value : CStr) (i : Nat) :
    ∀ (clients : List ClientData) (start : Nat),
      (notify_loop key value start clients).filter (fun w => decide (w.1 = i)) =
        if start ≤ i then
          match clients[i - start]? with
          | some c =>
            (c.subscribed_keys.filter (· = key)).map fun _ => (i, notification key value)
          | none => []
        else []
  | [], start => by simp [notify_loop]
  | c :: rest, start => by
    simp only [notify_loop, List.filter_append, notify_loop_filter key value i rest (start + 1)]
    rcases Nat.lt_trichotomy start i with hlt | heq | hgt
    · have h1 : ¬ start = i := by omega
      have h2 : i - start = (i - (start + 1)) + 1 := by omega
      have h3 : start + 1 ≤ i := hlt
      simp [List.filter_map, h1, h2, h3, Nat.le_of_lt hlt, Function.comp_def]
    · subst heq
      simp [List.filter_map, Function.comp_def]
    · have h1 : ¬ start = i := by omega
      have h2 : ¬ start ≤ i := by omega
      have h3 : ¬ start + 1 ≤ i := by omega
      simp [List.filter_map, h1, h2, h3, Function.comp_def]

theorem filter_eq_key_of_nodup (key : CStr) :
    ∀ {keys : List CStr}, keys.Nodup →
      keys.filter (· = key) = if key ∈ keys then [key] else []
  | [], _ => by simp
  | k :: rest, hnd => by
    obtain ⟨hk, hrest⟩ := List.nodup_cons.mp hnd
    by_cases hkey : k = key
    · subst hkey
      simp [filter_eq_key_of_nodup k hrest, hk]
    · have hne : ¬ key = k := fun e => hkey e.symm
      simp [filter_eq_key_of_nodup key hrest, hkey, hne]

theorem notify_clients_filter_of_tableInv {st : Server} (hinv : TableInv st)
    (key value : CStr) (i : Nat) :
    ((∃ c, st.clients[i]? = some c ∧ c.active ≠ 0 ∧ key ∈ c.subscribed_keys) →
      (notify_clients st key value).filter (fun w => decide (w.1 = i)) =
        [(i, notification key value)]) ∧
    (¬ (∃ c, st.clients[i]? = some c ∧ c.active ≠ 0 ∧ key ∈ c.subscribed_keys) →
      (notify_clients st key value).filter (fun w => decide (w.1 = i)) = []) := by
  unfold notify_clients
  rw [notify_loop_filter]
  simp only [Nat.zero_le, if_true, Nat.sub_zero, List.getElem?_take]
  constructor
  · rintro ⟨c, hc, hact, hmem⟩
    have hlt : i < st.num_clients := by
      by_contra hge
      exact hact (hinv.beyond i c hc (Nat.le_of_not_lt hge))
    simp [hlt, hc, filter_eq_key_of_nodup key (hinv.nodup i c hc), hmem]
  · intro hno
    by_cases hlt : i < st.num_clients
    · cases hc : st.clients[i]? with
      | none => simp [hlt]
      | some c =>
        have hnot : key ∉ c.subscribed_keys := by
          intro hmem
          by_cases hact : c.active = 0
          · rw [hinv.inactive_empty i c hc hact] at hmem
            simp at hmem
          · exact hno ⟨c, hc, hact, hmem⟩
        simp [hlt, filter_eq_key_of_nodup key (hinv.nodup i c hc), hnot]
    · simp [hlt]

/-- On every session table reached from the start state by CONNECT,
SUBSCRIBE, UNSUBSCRIBE and DISCONNECT events, without SIGUSR1 and without a
CONNECT frame whose request path is that of a slot with a running handler,
`notify_clients` issues exactly one write on a slot that is active and
holds the key, and no write on any other slot. -/
theorem notify_clients_without_signal (ops : List ServerOp) (st : Server)
    (key value : CStr) (i : Nat) (hrun : run Server.init ops = some st)
    (hdistinct : distinct_paths Server.init ops = true) (hsignal : no_signal ops = true) :
    ((∃ c, st.clients[i]? = some c ∧ c.active ≠ 0 ∧ key ∈ c.subscribed_keys) →
      (notify_clients st key value).filter (fun w => decide (w.1 = i)) =
        [(i, notification key value)]) ∧
    (¬ (∃ c, st.clients[i]? = some c ∧ c.active ≠ 0 ∧ key ∈ c.subscribed_keys) →
      (notify_clients st key value).filter (fun w => decide (w.1 = i)) = []) :=
  notify_clients_filter_of_tableInv
    (tableInv_run ops Server.init st tableInv_init hrun hdistinct hsignal) key value i

/-- C6: `notify_clients` issues a write on an inactive slot. First run:
client "a" connects, SIGUSR1 frees slot 0 without stopping its handler
thread, and the handler serves a SUBSCRIBE for "a"; no request path was ever
in use twice. Second run: two listener passes with the same paths, the
DISCONNECT read by the handler of slot 1 frees slot 0, and the handler of
slot 0 serves a SUBSCRIBE for "a". In both tables slot 0 has `active = 0`
and holds the key, and `notify_clients`, which never tests `active`,
issues its one write on slot 0. -/
theorem notify_clients_inactive_slot :
    distinct_paths Server.init resetOps = true ∧
    (∃ st, run Server.init resetOps = some st ∧
      st.clients[0]? = some ⟨[97], [98], [99], 0, [[97]]⟩ ∧
      notify_clients st [97] [50] = [(0, [40, 97, 44, 50, 41, 10])]) ∧
    (∃ st, run Server.init sharedPathOps = some st ∧
      st.clients[0]? = some ⟨[97], [98], [99], 0, [[97]]⟩ ∧
      notify_clients st [97] [50] = [(0, [40, 97, 44, 50, 41, 10])]) :=
  ⟨by decide, ⟨_, rfl, rfl, rfl⟩, ⟨_, rfl, rfl, rfl⟩⟩

/-! ## Theorems: the keys of one session -/

theorem nodup_applySessionOp {client_data client_data1 : ClientData} {op : SessionOp}
    (hnd : client_data.subscribed_keys.Nodup)
    (h : applySessionOp client_data op = some client_data1) :
    client_data1.subscribed_keys.Nodup := by
  cases op with
  | subscribe ht buffer =>
    simp only [applySessionOp, Option.map_eq_some'] at h
    obtain ⟨res, hres, rfl⟩ := h
    exact (handle_subscribe_session hres).2.2 hnd
  | unsubscribe buffer =>
    simp only [applySessionOp, Option.some.injEq] at h
    subst h
    exact (handle_unsubscribe_session client_data buffer).2.2 hnd
  | reset =>
    simp only [applySessionOp, Option.some.injEq] at h
    subst h
    split_ifs
    · exact List.nodup_nil
    · exact hnd

theorem nodup_runSession :
    ∀ (ops : List SessionOp) (client_data client_data1 : ClientData),
      client_data.subscribed_keys.Nodup → runSession client_data ops = some client_data1 →
      client_data1.subscribed_keys.Nodup
  | [], client_data, client_data1, hnd, h => by
    simp only [runSession, Option.some.injEq] at h
    subst h; exact hnd
  | op :: ops, client_data, client_data1, hnd, h => by
    simp only [runSession] at h
    cases hop : applySessionOp client_data op with
    | none => simp [hop] at h
    | some client_data2 =>
      simp only [hop] at h
      exact nodup_runSession ops client_data2 client_data1 (nodup_applySessionOp hnd hop) h

theorem runSession_defined :
    ∀ (ops : List SessionOp) (client_data : ClientData), (∀ op ∈ ops, op.valid) →
      ∃ client_data1, runSession client_data ops = some client_data1
  | [], client_data, _ => ⟨client_data, rfl⟩
  | op :: ops, client_data, hvalid => by
    have hop : ∃ client_data2, applySessionOp client_data op = some client_data2 := by
      cases op with
      | subscribe ht buffer =>
        have hv : ValidKey (request_key buffer) := hvalid _ (List.mem_cons_self _ _)
        unfold applySessionOp handle_subscribe
        rcases key_exists_of_valid ht hv with h0 | h1
        · simp [h0]
        · simp [h1]
      | unsubscribe buffer => exact ⟨_, rfl⟩
      | reset => exact ⟨_, rfl⟩
    obtain ⟨client_data2, h2⟩ := hop
    obtain ⟨client_data1, h1⟩ :=
      runSession_defined ops client_data2 fun o ho => hvalid o (List.mem_cons_of_mem _ ho)
    exact ⟨client_data1, by simp [runSession, h2, h1]⟩

/-- C11: for every session that starts with an empty `subscribed_keys` and
every sequence of SUBSCRIBE, UNSUBSCRIBE and reset operations, with any keys
and store contents: whenever the sequence yields a session record, its
`subscribed_keys` (the first `num_subscribed_keys` rows) hold no key twice;
and a sequence whose SUBSCRIBE keys start with a letter or digit always
yields one. -/
theorem subscribed_keys_nodup (client_data : ClientData) (ops : List SessionOp)
    (hempty : client_data.subscribed_keys = []) :
    (∀ client_data1, runSession client_data ops = some client_data1 →
      client_data1.subscribed_keys.Nodup) ∧
    ((∀ op ∈ ops, op.valid) → ∃ client_data1, runSession client_data ops = some client_data1) :=
  ⟨fun client_data1 h =>
      nodup_runSession ops client_data client_data1 (by rw [hempty]; exact List.nodup_nil) h,
    runSession_defined ops client_data⟩

/-- C11 witness: the session of client "a" after `sessionOps` holds the keys
"a" only once. -/
theorem subscribed_keys_nodup_witness :
    sessionA.subscribed_keys = [] ∧
    runSession sessionA sessionOps = some ⟨[97], [98], [99], 1, [[97]]⟩ ∧
    (∀ client_data1, runSession sessionA sessionOps = some client_data1 →
      client_data1.subscribed_keys.Nodup) ∧
    ((∀ op ∈ sessionOps, op.valid) →
      ∃ client_data1, runSession sessionA sessionOps = some client_data1) :=
  ⟨rfl, by decide, subscribed_keys_nodup sessionA sessionOps rfl⟩

/-! ## Theorems: one entry per key -/

theorem hash_eq_of_slot {index : Int} {i : Fin TABLE_SIZE} (h : slot index = some i) :
    index = (i.val : Int) := by
  unfold slot at h
  split_ifs at h with hb
  simp only [Option.some.injEq] at h
  subst h
  simp only [Int.toNat_of_nonneg hb.1]

theorem chainsHashed_create : ChainsHashed create_hash_table := by
  intro index key h; simp [create_hash_table] at h

theorem chainsHashed_update {ht : HashTable} {index : Fin TABLE_SIZE} {chain : List KeyNode}
    (hinv : ChainsHashed ht)
    (hchain : ∀ key ∈ chain.map KeyNode.key, slot (hash key) = some index) :
    ChainsHashed ⟨Function.update ht.table index chain⟩ := by
  intro j key hkey
  by_cases hj : j = index
  · subst hj
    simp only [Function.update_same] at hkey
    exact hchain key hkey
  · simp only [Function.update_noteq hj] at hkey
    exact hinv j key hkey

theorem chainsHashed_applyStoreOp {ht ht1 : HashTable} {op : StoreOp}
    (hinv : ChainsHashed ht) (h : applyStoreOp ht op = some ht1) : ChainsHashed ht1 := by
  cases op with
  | write key value =>
    simp only [applyStoreOp, write_pair, Option.map_eq_some'] at h
    obtain ⟨r, hr, rfl⟩ := h
    cases hs : slot (hash key) with
    | none => simp [hs] at hr
    | some index =>
      simp only [hs] at hr
      cases hw : write_chain key value (ht.table index) with
      | some chain =>
        simp only [hw, Option.some.injEq] at hr
        subst hr
        exact chainsHashed_update hinv (by rw [write_chain_keys hw]; exact hinv index)
      | none =>
        simp only [hw, Option.some.injEq] at hr
        subst hr
        refine chainsHashed_update hinv fun k hk => ?_
        simp only [List.map_cons, List.mem_cons] at hk
        rcases hk with rfl | hk
        · exact hs
        · exact hinv index k hk
  | delete key =>
    simp only [applyStoreOp, delete_pair, Option.map_eq_some'] at h
    obtain ⟨r, hr, rfl⟩ := h
    cases hs : slot (hash key) with
    | none => simp [hs] at hr
    | some index =>
      simp only [hs] at hr
      cases hd : delete_chain key (ht.table index) with
      | some chain =>
        simp only [hd, Option.some.injEq] at hr
        subst hr
        refine chainsHashed_update hinv fun k hk => ?_
        rw [delete_chain_keys hd] at hk
        exact hinv index k (List.mem_of_mem_erase hk)
      | none =>
        simp only [hd, Option.some.injEq] at hr
        subst hr
        exact hinv

theorem applyStoreOp_defined (ht : HashTable) {op : StoreOp} (hv : ValidKey op.key) :
    ∃ ht1, applyStoreOp ht op = some ht1 := by
  obtain ⟨index, hidx⟩ := slot_hash_of_valid hv
  cases op with
  | write key value =>
    simp only [StoreOp.key] at hidx
    unfold applyStoreOp write_pair
    simp only [hidx]
    cases write_chain key value (ht.table index) <;> exact ⟨_, rfl⟩
  | delete key =>
    simp only [StoreOp.key] at hidx
    unfold applyStoreOp delete_pair
    simp only [hidx]
    cases delete_chain key (ht.table index) <;> exact ⟨_, rfl⟩

theorem runStore_valid :
    ∀ (ops : List StoreOp) (ht : HashTable), ChainsNodup ht → ChainsHashed ht →
      (∀ op ∈ ops, ValidKey op.key) →
      ∃ ht1, runStore ht ops = some ht1 ∧ ChainsNodup ht1 ∧ ChainsHashed ht1
  | [], ht, hnd, hh, _ => ⟨ht, rfl, hnd, hh⟩
  | op :: ops, ht, hnd, hh, hvalid => by
    obtain ⟨ht2, h2⟩ := applyStoreOp_defined ht (hvalid op (List.mem_cons_self _ _))
    obtain ⟨ht1, h1, hnd1, hh1⟩ := runStore_valid ops ht2 (chainsNodup_applyStoreOp hnd h2)
      (chainsHashed_applyStoreOp hh h2) fun o ho => hvalid o (List.mem_cons_of_mem _ ho)
    exact ⟨ht1, by simp [runStore, h2, h1], hnd1, hh1⟩

theorem all_keys_nodup {ht : HashTable} (hnd : ChainsNodup ht) (hh : ChainsHashed ht) :
    (all_keys ht).Nodup := by
  unfold all_keys
  rw [List.nodup_flatMap]
  refine ⟨fun index _ => hnd index, ?_⟩
  refine (List.nodup_finRange TABLE_SIZE).imp ?_
  intro a b hab
  show List.Disjoint _ _
  intro key ha hb
  have h1 := hh a key ha
  have h2 := hh b key hb
  rw [h1] at h2
  exact hab (Option.some.inj h2)

/-- C12: every sequence of `write_pair` and `delete_pair` calls with valid
keys, started on the table of `create_hash_table`, runs to a table in which
no key occurs in more than one entry over all chains, and in which every
entry stored in chain `i` has `hash(key) = i`. -/
theorem one_entry_per_key (ops : List StoreOp) (hvalid : ∀ op ∈ ops, ValidKey op.key) :
    ∃ ht, runStore create_hash_table ops = some ht ∧ (all_keys ht).Nodup ∧
      ∀ (i : Fin TABLE_SIZE) (keyNode : KeyNode), keyNode ∈ ht.table i →
        hash keyNode.key = (i.val : Int) := by
  obtain ⟨ht, hrun, hnd, hh⟩ :=
    runStore_valid ops create_hash_table chainsNodup_create chainsHashed_create hvalid
  refine ⟨ht, hrun, all_keys_nodup hnd hh, fun i keyNode hmem => ?_⟩
  exact hash_eq_of_slot (hh i keyNode.key (List.mem_map_of_mem _ hmem))

/-- C12 witness: the commands of `storeOps`, whose keys "a", "Ab" and "1"
meet in chains 0 and 1. -/
theorem one_entry_per_key_witness :
    (∀ op ∈ storeOps, ValidKey op.key) ∧
    ∃ ht, runStore create_hash_table storeOps = some ht ∧ (all_keys ht).Nodup ∧
      ∀ (i : Fin TABLE_SIZE) (keyNode : KeyNode), keyNode ∈ ht.table i →
        hash keyNode.key = (i.val : Int) :=
  ⟨by decide, one_entry_per_key storeOps (by decide)⟩

/-! ## Theorems: the reset signal -/

theorem slotsBound_init : SlotsBound Server.init := by
  refine ⟨by simp [Server.init], fun i c h _ => ?_⟩
  simp only [Server.init, List.getElem?_replicate] at h
  split_ifs at h
  cases h
  rfl

theorem slotsBound_of_active {st : Server} (hinv : SlotsBound st)
    (clients1 : List ClientData) (sig : Int) (handlers1 : List Nat)
    (hlen : clients1.length = st.clients.length)
    (hslots : ∀ (i : Nat) (c1 : ClientData), clients1[i]? = some c1 →
      ∃ c, st.clients[i]? = some c ∧ (c1.active = c.active ∨ c1.active = 0)) :
    SlotsBound ⟨clients1, st.num_clients, sig, handlers1⟩ := by
  refine ⟨hlen.trans hinv.1, fun i c1 h1 hi => ?_⟩
  obtain ⟨c, hc, hact⟩ := hslots i c1 h1
  rcases hact with h | h
  · rw [h]; exact hinv.2 i c hc hi
  · exact h

theorem slotsBound_set {st : Server} (hinv : SlotsBound st) {slot : Nat} {cd cd1 : ClientData}
    (hcd : st.clients[slot]? = some cd) (hact : cd1.active = cd.active) :
    SlotsBound { st with clients := st.clients.set slot cd1 } := by
  refine slotsBound_of_active hinv _ st.sigusr1_received st.handlers (by simp) ?_
  intro i c1 h1
  rw [List.getElem?_set] at h1
  by_cases hi : slot = i
  · subst hi
    rw [if_pos rfl] at h1
    split_ifs at h1
    cases h1
    exact ⟨cd, hcd, Or.inl hact⟩
  · rw [if_neg hi] at h1
    exact ⟨c1, h1, Or.inl rfl⟩

theorem slotsBound_remove_client {st : Server} (hinv : SlotsBound st) (req_pipe_path : CStr)
    (handlers1 : List Nat) :
    SlotsBound { (remove_client st req_pipe_path).1 with handlers := handlers1 } := by
  unfold remove_client
  cases find_path req_pipe_path (st.clients.take st.num_clients) with
  | none =>
    exact slotsBound_of_active hinv st.clients st.sigusr1_received handlers1 rfl
      fun i c1 h => ⟨c1, h, Or.inl rfl⟩
  | some i =>
    refine slotsBound_of_active hinv _ st.sigusr1_received handlers1 (by simp) ?_
    intro j c1 h1
    rw [List.getElem?_modify] at h1
    cases hj : st.clients[j]? with
    | none => simp [hj] at h1
    | some c =>
      simp only [hj, Option.map_eq_map, Option.map_some', Option.some.injEq] at h1
      refine ⟨c, rfl, ?_⟩
      by_cases hij : i = j
      · rw [if_pos hij] at h1
        subst h1
        exact Or.inr rfl
      · rw [if_neg hij] at h1
        subst h1
        exact Or.inl rfl

theorem slotsBound_client_handler {st : Server} (hinv : SlotsBound st) {ht : HashTable}
    {slot : Nat} {buffer : List Nat} {r : HandlerResult}
    (h : client_handler st ht slot buffer = some r) : SlotsBound r.st := by
  unfold client_handler at h
  cases hcd : st.clients[slot]? with
  | none => simp [hcd] at h
  | some cd =>
    simp only [hcd] at h
    split_ifs at h with h3 h4 h2
    · cases hsub : handle_subscribe ht cd buffer with
      | none => simp [hsub] at h
      | some res =>
        obtain ⟨cd1, response⟩ := res
        simp only [hsub, Option.some.injEq] at h
        subst h
        exact slotsBound_set hinv hcd (handle_subscribe_session hsub).1
    · simp only [Option.some.injEq] at h
      subst h
      exact slotsBound_set hinv hcd (handle_unsubscribe_session cd buffer).1
    · simp only [Option.some.injEq] at h
      subst h
      exact slotsBound_remove_client hinv cd.req_pipe_path _
    · simp only [Option.some.injEq] at h
      subst h
      exact hinv

theorem slotsBound_admit {st : Server} (hinv : SlotsBound st) {cid : Nat}
    (new : ClientData)
    (hmin : ∀ (j : Nat) (cj : ClientData), j < cid → st.clients[j]? = some cj → cj.active ≠ 0)
    (num1 : Nat) (handlers1 : List Nat)
    (hcase : (st.num_clients < MAX_NUMBER_SUB ∧ num1 = st.num_clients + 1) ∨
      (MAX_NUMBER_SUB ≤ st.num_clients ∧ num1 = st.num_clients)) :
    SlotsBound ⟨(st.clients.set cid new).set st.num_clients new, num1, st.sigusr1_received,
      handlers1⟩ := by
  have hlen := hinv.1
  refine ⟨by simp [hlen], fun j c1 h1 hj => ?_⟩
  have hj' : num1 ≤ j := hj
  have hjlt : j < MAX_NUMBER_SUB := by
    have := (List.getElem?_eq_some_iff.mp h1).1
    simpa [hlen] using this
  rcases hcase with ⟨hlt, hn⟩ | ⟨hge, hn⟩
  · have hle : cid ≤ st.num_clients := by
      by_contra hgt
      have hn' : st.num_clients < st.clients.length := by omega
      have hlook := List.getElem?_eq_getElem hn'
      exact hmin _ _ (by omega) hlook (hinv.2 _ _ hlook (Nat.le_refl _))
    rw [List.getElem?_set_ne (by omega), List.getElem?_set_ne (by omega)] at h1
    exact hinv.2 j c1 h1 (by omega)
  · omega

theorem slotsBound_client_listener {st : Server} (hinv : SlotsBound st) (frame : Frame) :
    SlotsBound (client_listener st frame).st := by
  unfold client_listener
  cases hfree : free_slot st.clients with
  | none => exact hinv
  | some cid =>
    obtain ⟨⟨c0, hc0, hact0⟩, hmin⟩ := free_slot_eq_some hfree
    have hget : st.clients.getD cid ClientData.zero = c0 := by
      rw [List.getD_eq_getElem?_getD, hc0]; rfl
    simp only [hget, hact0, if_true]
    by_cases hnum : st.num_clients ≥ MAX_NUMBER_SUB
    · have hset : (st.clients.set cid
            ⟨frame.req_pipe_path, frame.resp_pipe_path, frame.notif_pipe_path, 1, []⟩).set
            st.num_clients
            ⟨frame.req_pipe_path, frame.resp_pipe_path, frame.notif_pipe_path, 1, []⟩ =
          st.clients.set cid
            ⟨frame.req_pipe_path, frame.resp_pipe_path, frame.notif_pipe_path, 1, []⟩ :=
        List.set_eq_of_length_le (by simp [hinv.1]; exact hnum)
      have := slotsBound_admit hinv
        ⟨frame.req_pipe_path, frame.resp_pipe_path, frame.notif_pipe_path, 1, []⟩
        hmin st.num_clients st.handlers (Or.inr ⟨hnum, rfl⟩)
      rw [hset] at this
      simpa [add_client, hnum] using this
    · have := slotsBound_admit hinv
        ⟨frame.req_pipe_path, frame.resp_pipe_path, frame.notif_pipe_path, 1, []⟩
        hmin (st.num_clients + 1) (cid :: st.handlers)
        (Or.inl ⟨Nat.lt_of_not_le hnum, rfl⟩)
      simpa [add_client, hnum] using this

theorem getElem?_handle_sigusr1 (st : Server) (i : Nat) :
    (handle_sigusr1 st).clients[i]? =
      if i < st.num_clients then
        (st.clients[i]?).map fun c =>
          if c.active ≠ 0 then { c with subscribed_keys := [], active := 0 } else c
      else st.clients[i]? := by
  unfold handle_sigusr1 disconnect_all_clients unsubscribe_all_clients
  simp only [getElem?_map_first]
  by_cases hlt : i < st.num_clients
  · simp only [hlt, if_true, Option.map_map]
    congr 1
    funext c
    by_cases hact : c.active = 0
    · simp [hact]
    · simp [hact]
  · simp [hlt]

theorem slotsBound_handle_sigusr1 {st : Server} (hinv : SlotsBound st) :
    SlotsBound (handle_sigusr1 st) := by
  refine ⟨?_, fun i c1 h1 hi => ?_⟩
  · unfold handle_sigusr1 disconnect_all_clients unsubscribe_all_clients
    simp [length_map_first, hinv.1]
  · rw [getElem?_handle_sigusr1] at h1
    have hnum : (handle_sigusr1 st).num_clients = st.num_clients := rfl
    rw [hnum] at hi
    rw [if_neg (by omega)] at h1
    exact hinv.2 i c1 h1 hi

theorem slotsBound_run :
    ∀ (ops : List ServerOp) (st st1 : Server), SlotsBound st → run st ops = some st1 →
      SlotsBound st1
  | [], st, st1, hinv, hrun => by
    simp only [run, Option.some.injEq] at hrun
    subst hrun; exact hinv
  | op :: ops, st, st1, hinv, hrun => by
    simp only [run] at hrun
    cases hstep : step st op with
    | none => simp [hstep] at hrun
    | some st2 =>
      simp only [hstep] at hrun
      refine slotsBound_run ops st2 st1 ?_ hrun
      cases op with
      | connect frame =>
        simp only [step, Option.some.injEq] at hstep
        subst hstep
        exact slotsBound_client_listener hinv frame
      | request slot ht buffer =>
        simp only [step] at hstep
        split_ifs at hstep with hcond
        obtain ⟨r, hr, rfl⟩ := Option.map_eq_some'.mp hstep
        exact slotsBound_client_handler hinv hr
      | sigusr1 =>
        simp only [step, Option.some.injEq] at hstep
        subst hstep
        exact slotsBound_handle_sigusr1 hinv

/-- C13 (amended): on every session table reached from the start state by
CONNECT, SUBSCRIBE, UNSUBSCRIBE, DISCONNECT and SIGUSR1 events, after
`handle_sigusr1` the flag `sigusr1_received` is 1, the table still has
`MAX_NUMBER_SUB` slots, every slot is inactive, and every slot that was
active before the signal has no subscribed key; a slot that was inactive
before the signal is left as it was. -/
theorem handle_sigusr1_frees_slots (ops : List ServerOp) (st : Server)
    (hrun : run Server.init ops = some st) :
    (handle_sigusr1 st).sigusr1_received = 1 ∧
    (handle_sigusr1 st).clients.length = MAX_NUMBER_SUB ∧
    (∀ (i : Nat) (c1 : ClientData), (handle_sigusr1 st).clients[i]? = some c1 →
      c1.active = 0 ∧
      ∀ c : ClientData, st.clients[i]? = some c →
        (c.active ≠ 0 → c1.subscribed_keys = []) ∧ (c.active = 0 → c1 = c)) := by
  have hbound := slotsBound_run ops Server.init st slotsBound_init hrun
  have hslot : ∀ (i : Nat) (c1 : ClientData), (handle_sigusr1 st).clients[i]? = some c1 →
      ∃ c, st.clients[i]? = some c ∧
        ((c.active ≠ 0 ∧ c1.active = 0 ∧ c1.subscribed_keys = []) ∨ (c.active = 0 ∧ c1 = c)) := by
    intro i c1 h1
    rw [getElem?_handle_sigusr1] at h1
    cases hc : st.clients[i]? with
    | none => simp [hc] at h1
    | some c =>
      refine ⟨c, rfl, ?_⟩
      by_cases hact : c.active = 0
      · refine Or.inr ⟨hact, ?_⟩
        by_cases hlt : i < st.num_clients
        · simp [hc, hlt, hact] at h1; exact h1.symm
        · simp [hc, hlt] at h1; exact h1.symm
      · have hlt : i < st.num_clients := by
          by_contra hge
          exact hact (hbound.2 i c hc (Nat.le_of_not_lt hge))
        simp [hc, hlt, hact] at h1
        subst h1
        exact Or.inl ⟨hact, rfl, rfl⟩
  refine ⟨rfl, (slotsBound_handle_sigusr1 hbound).1, fun i c1 h1 => ?_⟩
  obtain ⟨c, hc, hcase⟩ := hslot i c1 h1
  rcases hcase with ⟨hact, h0, hkeys⟩ | ⟨h0, rfl⟩
  · refine ⟨h0, fun c2 hc2 => ?_⟩
    rw [hc] at hc2; cases hc2
    exact ⟨fun _ => hkeys, fun hz => absurd hz hact⟩
  · refine ⟨h0, fun c2 hc2 => ?_⟩
    rw [hc] at hc2; cases hc2
    exact ⟨fun hact2 => absurd h0 hact2, fun _ => rfl⟩

/-- C13 witness: two connected clients, one of them subscribed; after the
signal both slots are inactive without keys. -/
theorem handle_sigusr1_frees_slots_witness :
    run Server.init twoClientOps = some twoClientTable ∧
    twoClientTable.clients[0]? = some ⟨[97], [98], [99], 1, [[97]]⟩ ∧
    (handle_sigusr1 twoClientTable).clients[0]? = some ⟨[97], [98], [99], 0, []⟩ ∧
    (handle_sigusr1 twoClientTable).clients[1]? = some ⟨[100], [101], [102], 0, []⟩ ∧
    (handle_sigusr1 twoClientTable).sigusr1_received = 1 ∧
    (handle_sigusr1 twoClientTable).clients.length = MAX_NUMBER_SUB ∧
    (∀ (i : Nat) (c1 : ClientData), (handle_sigusr1 twoClientTable).clients[i]? = some c1 →
      c1.active = 0 ∧
      ∀ c : ClientData, twoClientTable.clients[i]? = some c →
        (c.active ≠ 0 → c1.subscribed_keys = []) ∧ (c.active = 0 → c1 = c)) :=
  ⟨by decide, by decide, by decide, by decide,
    handle_sigusr1_frees_slots twoClientOps twoClientTable (by decide)⟩

/-- C13 counterexample: after the events of `sharedPathOps` (two clients
with the same paths, the second disconnects, the first subscribes), and
also after those of `resetOps` (a client connects, a first signal, its
handler serves a SUBSCRIBE), slot 0 is inactive and holds the key "a";
`unsubscribe_all_clients` skips inactive slots, so after `handle_sigusr1`
slot 0 still holds the key. -/
theorem handle_sigusr1_keeps_keys_counterexample :
    (∃ st, run Server.init sharedPathOps = some st ∧
      (handle_sigusr1 st).clients[0]? = some ⟨[97], [98], [99], 0, [[97]]⟩) ∧
    (∃ st, run Server.init resetOps = some st ∧
      (handle_sigusr1 st).clients[0]? = some ⟨[97], [98], [99], 0, [[97]]⟩) :=
  ⟨⟨_, rfl, rfl⟩, ⟨_, rfl, rfl⟩⟩

/-! ## Theorems: `hash`, invalid keys and the calls of the notifier -/

/-- C16: with `b` the first byte of the key (the NUL byte 0 for the empty
key): `hash` is `c - 'a'` when the lower-cased byte `c = tolower b` lies in
`'a'..'z'`, so `'A'..'Z'` and `'a'..'z'` both map onto 0..25; it is
`b - '0'` when `b` lies in `'0'..'9'`; it is -1 for every other byte; and
every result other than -1 lies in 0..25. -/
theorem hash_spec (key : CStr) :
    (97 ≤ tolower (key.headD 0) ∧ tolower (key.headD 0) ≤ 122 →
      hash key = (tolower (key.headD 0) : Int) - 97) ∧
    (65 ≤ key.headD 0 ∧ key.headD 0 ≤ 90 → hash key = (key.headD 0 : Int) - 65) ∧
    (97 ≤ key.headD 0 ∧ key.headD 0 ≤ 122 → hash key = (key.headD 0 : Int) - 97) ∧
    (48 ≤ key.headD 0 ∧ key.headD 0 ≤ 57 → hash key = (key.headD 0 : Int) - 48) ∧
    (¬ (97 ≤ tolower (key.headD 0) ∧ tolower (key.headD 0) ≤ 122) →
      ¬ (48 ≤ key.headD 0 ∧ key.headD 0 ≤ 57) → hash key = -1) ∧
    (key = [] → hash key = -1) ∧
    (hash key ≠ -1 → 0 ≤ hash key ∧ hash key ≤ 25) := by
  unfold hash tolower
  simp only []
  refine ⟨?_, ?_, ?_, ?_, ?_, ?_, ?_⟩
  · intro h
    split_ifs at h ⊢ <;> omega
  · intro h
    split_ifs <;> omega
  · intro h
    split_ifs <;> omega
  · intro h
    split_ifs <;> omega
  · intro h1 h2
    split_ifs at h1 ⊢ <;> omega
  · intro h
    subst h
    decide
  · intro h
    split_ifs at h ⊢ <;> omega

theorem slot_hash_of_invalid {key : CStr} (hk : ¬ ValidKey key) :
    hash key = -1 ∧ slot (hash key) = none := by
  have hhash : hash key = -1 := by
    unfold ValidKey isLetterOrDigit at hk
    unfold hash tolower
    simp only []
    split_ifs <;> omega
  rw [hhash]
  exact ⟨rfl, by decide⟩

/-- C14: for every store state, every value and every key whose first byte
is neither an ASCII letter nor a digit (the empty key included), `hash`
returns -1 and `write_pair` indexes `ht->table[-1]`, outside the array: no
result, and so no failure code, is defined (`none` in the model). -/
theorem write_pair_invalid_key (ht : HashTable) (key value : CStr) (hk : ¬ ValidKey key) :
    hash key = -1 ∧ write_pair ht key value = none := by
  obtain ⟨hhash, hslot⟩ := slot_hash_of_invalid hk
  exact ⟨hhash, by simp [write_pair, hslot]⟩

/-- C14 witness: writing the key "!" (byte 33) into the empty table. -/
theorem write_pair_invalid_key_witness :
    ¬ ValidKey [33] ∧ hash [33] = -1 ∧ write_pair create_hash_table [33] [49] = none :=
  ⟨by decide, write_pair_invalid_key create_hash_table [33] [49] (by decide)⟩

/-- C17: for every store state, valid key and value, `write_pair` returns
having called `notify_clients` exactly once, with `(key, value)`, on the
table that already holds the new value (fresh key or overwrite alike);
`delete_pair` returns having called it exactly once, with
`(key, "DELETED")`, when `key_exists` reported the key and it removed the
entry, and not at all when the key was absent. -/
theorem notifier_called_once (ht : HashTable) (k v : CStr) (hk : ValidKey k) :
    (∃ r, write_pair ht k v = some r ∧ r.notified = [⟨k, v, r.ht⟩] ∧
      read_pair r.ht k = some (some v)) ∧
    (∃ r, delete_pair ht k = some r ∧
      (key_exists ht k = some 1 → r.ret = 0 ∧ r.notified = [⟨k, DELETED, r.ht⟩]) ∧
      (key_exists ht k = some 0 → r.ret = 1 ∧ r.notified = [])) := by
  obtain ⟨index, hidx⟩ := slot_hash_of_valid hk
  constructor
  · unfold write_pair read_pair
    simp only [hidx]
    cases hw : write_chain k v (ht.table index) with
    | some chain => exact ⟨_, rfl, rfl, by simp [read_chain_write_chain_same hw]⟩
    | none => exact ⟨_, rfl, rfl, by simp [read_chain]⟩
  · unfold delete_pair key_exists
    simp only [hidx]
    cases hd : delete_chain k (ht.table index) with
    | some chain =>
      have hsome : read_chain k (ht.table index) ≠ none := fun hn =>
        by simp [delete_chain_eq_none_iff.mpr hn] at hd
      obtain ⟨v1, hv1⟩ := Option.ne_none_iff_exists'.mp hsome
      exact ⟨_, rfl, fun _ => ⟨rfl, rfl⟩, by simp [hv1]⟩
    | none =>
      have hnone := delete_chain_eq_none_iff.mp hd
      exact ⟨_, rfl, by simp [hnone], fun _ => ⟨rfl, rfl⟩⟩

/-- C17 witness: the key "a", already stored with the value "1", written
again with "1" and deleted. -/
theorem notifier_called_once_witness :
    ValidKey [97] ∧ key_exists storeA [97] = some 1 ∧
    (∃ r, write_pair storeA [97] [49] = some r ∧ r.notified = [⟨[97], [49], r.ht⟩] ∧
      read_pair r.ht [97] = some (some [49])) ∧
    (∃ r, delete_pair storeA [97] = some r ∧
      (key_exists storeA [97] = some 1 → r.ret = 0 ∧ r.notified = [⟨[97], DELETED, r.ht⟩]) ∧
      (key_exists storeA [97] = some 0 → r.ret = 1 ∧ r.notified = [])) :=
  ⟨by decide, by decide, notifier_called_once storeA [97] [49] (by decide)⟩

/-! ## Theorems: the notification record -/

theorem notify_loop_text (key value : CStr) :
    ∀ (clients : List ClientData) (i : Nat) (w : Nat × CStr),
      w ∈ notify_loop key value i clients → w.2 = notification key value
  | [], _, w, h => by simp [notify_loop] at h
  | c :: rest, i, w, h => by
    simp only [notify_loop, List.mem_append, List.mem_map] at h
    rcases h with ⟨_, _, rfl⟩ | h
    · rfl
    · exact notify_loop_text key value rest (i + 1) w h

theorem notification_of_fits (key value : CStr)
    (hfit : key.length + value.length + 2 ≤ 2 * MAX_STRING_SIZE) :
    notification key value = (40 :: key) ++ (44 :: value) ++ [41, 10] := by
  unfold notification
  apply List.take_of_length_le
  simp only [List.length_append, List.length_cons, List.length_nil, MAX_STRING_SIZE] at hfit ⊢
  omega

/-- C15 (amended): for every key and value of fewer than `MAX_STRING_SIZE`
bytes each, every record `notify_clients` writes is exactly the text
"(" key "," value ")" followed by a newline, its length is at most
`2*MAX_STRING_SIZE + 2` (so at most `2*MAX_STRING_SIZE + 4`), and the value
`delete_pair` passes to the notifier is "DELETED", giving the record
"(" key ",DELETED)" and a newline. -/
theorem notification_exact (key value : CStr) (hkey : key.length < MAX_STRING_SIZE)
    (hvalue : value.length < MAX_STRING_SIZE) :
    (∀ (st : Server) (w : Nat × CStr), w ∈ notify_clients st key value →
      w.2 = (40 :: key) ++ (44 :: value) ++ [41, 10]) ∧
    ((40 :: key) ++ (44 :: value) ++ [41, 10]).length ≤ 2 * MAX_STRING_SIZE + 2 ∧
    ((40 :: key) ++ (44 :: value) ++ [41, 10]).length ≤ 2 * MAX_STRING_SIZE + 4 ∧
    (∀ (ht : HashTable) (r : KvsResult), delete_pair ht key = some r →
      ∀ call ∈ r.notified, call.key = key ∧ call.value = DELETED) ∧
    (∀ (st : Server) (w : Nat × CStr), w ∈ notify_clients st key DELETED →
      w.2 = (40 :: key) ++ (44 :: DELETED) ++ [41, 10]) := by
  have hk : key.length < 40 := hkey
  have hv : value.length < 40 := hvalue
  refine ⟨fun st w hw => ?_, ?_, ?_, fun ht r hr call hcall => ?_, fun st w hw => ?_⟩
  · rw [notify_loop_text key value _ 0 w hw]
    exact notification_of_fits key value (by simp only [MAX_STRING_SIZE]; omega)
  · simp only [List.length_append, List.length_cons, List.length_nil, MAX_STRING_SIZE]
    omega
  · simp only [List.length_append, List.length_cons, List.length_nil, MAX_STRING_SIZE]
    omega
  · unfold delete_pair at hr
    cases hs : slot (hash key) with
    | none => simp [hs] at hr
    | some index =>
      simp only [hs] at hr
      cases hd : delete_chain key (ht.table index) with
      | some chain =>
        simp only [hd, Option.some.injEq] at hr
        subst hr
        simp only [List.mem_singleton] at hcall
        subst hcall
        exact ⟨rfl, rfl⟩
      | none =>
        simp only [hd, Option.some.injEq] at hr
        subst hr
        simp at hcall
  · rw [notify_loop_text key DELETED _ 0 w hw]
    exact notification_of_fits key DELETED
      (by simp only [MAX_STRING_SIZE, DELETED, List.length_cons, List.length_nil]; omega)

/-- C15 witness: the key "a" and the value "2". -/
theorem notification_exact_witness :
    ([97] : CStr).length < MAX_STRING_SIZE ∧ ([50] : CStr).length < MAX_STRING_SIZE ∧
    notify_clients subscribedTable [97] [50] = [(0, [40, 97, 44, 50, 41, 10])] ∧
    (∀ (st : Server) (w : Nat × CStr), w ∈ notify_clients st [97] [50] →
      w.2 = (40 :: [97]) ++ (44 :: [50]) ++ [41, 10]) ∧
    ((40 :: [97]) ++ (44 :: [50]) ++ [41, 10]).length ≤ 2 * MAX_STRING_SIZE + 2 ∧
    ((40 :: [97]) ++ (44 :: [50]) ++ [41, 10]).length ≤ 2 * MAX_STRING_SIZE + 4 ∧
    (∀ (ht : HashTable) (r : KvsResult), delete_pair ht [97] = some r →
      ∀ call ∈ r.notified, call.key = [97] ∧ call.value = DELETED) ∧
    (∀ (st : Server) (w : Nat × CStr), w ∈ notify_clients st [97] DELETED →
      w.2 = (40 :: [97]) ++ (44 :: DELETED) ++ [41, 10]) :=
  ⟨by decide, by decide, by decide, notification_exact [97] [50] (by decide) (by decide)⟩

/-- C15 counterexample: a subscribed key of 39 bytes and a value of
`MAX_STRING_SIZE` = 40 bytes. The text "(" key "," value ")" and newline
has 83 bytes, the buffer of `notify_clients` has `2*MAX_STRING_SIZE + 3` = 83
bytes including the terminator, and the record written has 82 bytes: the
newline is cut. -/
theorem notification_truncated_counterexample :
    key39.length ≤ MAX_STRING_SIZE ∧ value40.length ≤ MAX_STRING_SIZE ∧
    ∃ st, run Server.init longKeyOps = some st ∧
      notify_clients st key39 value40 = [(0, (40 :: key39) ++ (44 :: value40) ++ [41])] ∧
      ((40 :: key39) ++ (44 :: value40) ++ [41] : CStr) ≠
        (40 :: key39) ++ (44 :: value40) ++ [41, 10] ∧
      ((40 :: key39) ++ (44 :: value40) ++ [41] : CStr).length = 82 :=
  ⟨by decide, by decide, _, rfl, by decide, by decide, by decide⟩

/-! ## Theorems: CONNECT when a slot is free -/

/-- C18: when a slot is free but `num_clients` has reached `MAX_NUMBER_SUB`,
the listener fills the first free slot with the paths of the frame, marks it
active with no keys and replies `{CONNECT, 0}`, then `add_client` returns -1
and the pass ends before `pthread_create`: no handler thread is created for
the acknowledged client. -/
theorem client_listener_without_thread (st : Server) (frame : Frame) (client_id : Nat)
    (hfree : free_slot st.clients = some client_id)
    (hnum : MAX_NUMBER_SUB ≤ st.num_clients) :
    (client_listener st frame).response = some [1, 0] ∧
    (client_listener st frame).spawned = none ∧
    (client_listener st frame).st.clients =
      st.clients.set client_id
        ⟨frame.req_pipe_path, frame.resp_pipe_path, frame.notif_pipe_path, 1, []⟩ ∧
    (client_listener st frame).st.num_clients = st.num_clients ∧
    (client_listener st frame).st.handlers = st.handlers := by
  obtain ⟨⟨c0, hc0, hact0⟩, _⟩ := free_slot_eq_some hfree
  have hget1 : (st.clients[client_id]?.getD ClientData.zero).active = 0 := by
    rw [hc0]; exact hact0
  unfold client_listener
  simp [hfree, hget1, add_client, hnum, OP_CODE_CONNECT]

/-- C18 witness: `MAX_NUMBER_SUB` clients connect and the one of slot 0
disconnects, which leaves slot 0 free and `num_clients = MAX_NUMBER_SUB`;
the next CONNECT is answered `{CONNECT, 0}`, slot 0 is active again, and no
thread is created (the running handlers are the same as before). -/
theorem client_listener_without_thread_witness :
    run Server.init cycleOps = some cycleTable ∧
    distinct_paths Server.init cycleOps = true ∧
    free_slot cycleTable.clients = some 0 ∧
    MAX_NUMBER_SUB ≤ cycleTable.num_clients ∧
    (client_listener cycleTable frameA).st.clients[0]? = some ⟨[97], [98], [99], 1, []⟩ ∧
    0 ∉ (client_listener cycleTable frameA).st.handlers ∧
    (client_listener cycleTable frameA).response = some [1, 0] ∧
    (client_listener cycleTable frameA).spawned = none ∧
    (client_listener cycleTable frameA).st.clients =
      cycleTable.clients.set 0
        ⟨frameA.req_pipe_path, frameA.resp_pipe_path, frameA.notif_pipe_path, 1, []⟩ ∧
    (client_listener cycleTable frameA).st.num_clients = cycleTable.num_clients ∧
    (client_listener cycleTable frameA).st.handlers = cycleTable.handlers :=
  ⟨by decide, by decide, by decide, by decide, by decide, by decide,
    client_listener_without_thread cycleTable frameA 0 (by decide) (by decide)⟩

end KVS
